import Mathlib

/-!
# Verification of the podcast pipeline core (`podcast_service.py` and friends)

Shallow embedding of the resumable job-processing core of the repository:

* `StateManager` (the durable state store): episode records are JSON
  dictionaries; we model a dictionary as an association list updated with
  Python `dict` semantics (assignment replaces the first binding in place,
  otherwise appends; `d.update(e)` folds assignments of `e` into `d`).
* `PodcastService.process_episode` / `_generate_notes` /
  `check_and_process_new` (the orchestrator): modelled as pure functions over
  an explicit service state (episode map + transcript-file set), parameterised
  by an `Env` of deterministic adapter oracles (asset resolver, transcription
  submit / wait, transcript-file write, transcript load, document render).
  Every adapter interaction is recorded in a trace of `ACall`s.
* `LLMManager._extract_json`: modelled on `List Char`, including a recogniser
  for the JSON accepted by Python's `json.loads`.

Timestamps (`updated_at`, `failed_at`, `completed_at`) carry wall-clock
strings in the code; in the orchestrator model they are abstracted to
presence flags, while the dictionary-level store model keeps them as opaque
strings supplied by the caller (`now`).
-/

namespace PodcastSpec

/-! ## Python dictionaries as association lists -/

/-- Python `d[k] = v`: replace the first binding of `k` in place, else append. -/
def assocSet {α β : Type} [DecidableEq α] : List (α × β) → α → β → List (α × β)
  | [], k, v => [(k, v)]
  | (k', v') :: rest, k, v =>
      if k' = k then (k, v) :: rest else (k', v') :: assocSet rest k v

/-- Python `d.get(k)` / `d[k]`: first binding wins (keys are unique in a real
dict, so this is exact). -/
def assocGet {α β : Type} [DecidableEq α] : List (α × β) → α → Option β
  | [], _ => none
  | (k', v') :: rest, k => if k' = k then some v' else assocGet rest k

/-- String-keyed, string-valued episode dictionary (the JSON object stored per
episode). -/
abbrev Fields := List (String × String)

/-- Python `d.update(e)`: assignments of `e` folded into `d` in order. -/
def dictUpdate (d : Fields) : Fields → Fields
  | [] => d
  | (k, v) :: rest => dictUpdate (assocSet d k v) rest

/-- The value the key `k` ends up with after building a Python dict literal
from the (ordered) pairs `e`: the last occurrence wins. -/
def dictLast : Fields → String → Option String
  | [], _ => none
  | (k', v') :: rest, k =>
      match dictLast rest k with
      | some w => some w
      | none => if k' = k then some v' else none

/-! ## `StateManager` (`podcast_service.py`, lines 120-224) -/

/-- The in-memory store: `{"episodes": {...}, "last_check_time": ...}`. -/
structure StoreState where
  episodes : List (String × Fields)
  last_check_time : Option String
deriving DecidableEq

/-- `_load_state`'s fresh state (`podcast_service.py` lines 141-142). -/
def freshState : StoreState := { episodes := [], last_check_time := none }

/-- `StateManager._load_state`: if the state file exists, parse it
(`parsed = some st` when `json.load` succeeds); on a missing file or any
load/parse failure, fall back to a fresh empty state. -/
def load_state (fileExists : Bool) (parsed : Option StoreState) : StoreState :=
  if fileExists then
    match parsed with
    | some st => st
    | none => freshState
  else freshState

/-- `StateManager.get_episode`. -/
def get_episode (st : StoreState) (episode_id : String) : Option Fields :=
  assocGet st.episodes episode_id

/-- `StateManager.is_completed`. -/
def is_completedS (st : StoreState) (episode_id : String) : Bool :=
  match get_episode st episode_id with
  | some e => assocGet e "state" = some "completed"
  | none => false

/-- `StateManager.is_transcribed`. -/
def is_transcribedS (st : StoreState) (episode_id : String) : Bool :=
  match get_episode st episode_id with
  | some e =>
      assocGet e "state" = some "transcribed" ∨ assocGet e "state" = some "completed"
  | none => false

/-- The dict literal `{"updated_at": now, **data}` built by `update_episode`:
the stamp is inserted first, so a key `"updated_at"` occurring in `data`
overrides it. -/
def stampedFields (now : String) (data : Fields) : Fields :=
  dictUpdate [("updated_at", now)] data

/-- `StateManager.update_episode` (in-memory part, lines 166-177): ensure a
record exists for `episode_id`, then `record.update({"updated_at": now, **data})`. -/
def update_episode (st : StoreState) (episode_id : String) (data : Fields)
    (now : String) : StoreState :=
  let cur := (get_episode st episode_id).getD []
  { st with episodes := assocSet st.episodes episode_id (dictUpdate cur (stampedFields now data)) }

/-- Outcome of the `open`/`json.dump` sequence inside `_save_state`
(lines 147-148): `ok` — both succeed; `openFailed` — `open(..., 'w')` itself
raises, before the file is truncated; `dumpFailed n` — `open` succeeded (and
thereby truncated the file) but `json.dump` raised after emitting `n`
characters of the new serialization. -/
inductive WriteOutcome where
  | ok
  | openFailed
  | dumpFailed (n : Nat)
deriving DecidableEq

/-- Contents of the state file: either a complete serialization of a store,
or a truncated prefix (`n` characters) of the serialization of a store, left
behind by a `json.dump` that raised mid-write. -/
inductive DiskFile where
  | content (st : StoreState)
  | truncated (st : StoreState) (n : Nat)
deriving DecidableEq

/-- `StateManager._save_state` (lines 144-150): serialize the whole store to
the state file, which is opened with mode `'w'` (truncate-on-open) and
written in place — there is no temp-file / atomic-replace step.  The
surrounding `try/except` catches any failure and merely logs it, so the
function is total; when `open` itself fails the file is untouched, and when
`json.dump` fails mid-write the file is left holding a truncated prefix of
the new serialization. -/
def save_state (w : WriteOutcome) (st : StoreState) (disk : DiskFile) :
    DiskFile :=
  match w with
  | WriteOutcome.ok => DiskFile.content st
  | WriteOutcome.openFailed => disk
  | WriteOutcome.dumpFailed n => DiskFile.truncated st n

/-- Result of one full `update_episode` call, including persistence:
`raised` records whether an exception escaped the call. -/
structure UpdateOutcome where
  mem : StoreState
  disk : DiskFile
  raised : Bool
deriving DecidableEq

/-- `update_episode` followed by its trailing `_save_state()` call: the
`except` clause inside `_save_state` swallows the write failure, so the call
always returns normally (`raised = false`). -/
def update_episode_run (w : WriteOutcome) (st : StoreState) (disk : DiskFile)
    (episode_id : String) (data : Fields) (now : String) : UpdateOutcome :=
  let st' := update_episode st episode_id data now
  { mem := st', disk := save_state w st' disk, raised := false }

/-! ### Dictionary lemmas -/

theorem assocGet_assocSet_self {α β : Type} [DecidableEq α]
    (d : List (α × β)) (k : α) (v : β) : assocGet (assocSet d k v) k = some v := by
  induction d with
  | nil => simp [assocSet, assocGet]
  | cons hd rest ih =>
      obtain ⟨k', v'⟩ := hd
      by_cases h : k' = k
      · simp [assocSet, assocGet, h]
      · simp [assocSet, assocGet, h, ih]

theorem assocGet_assocSet_ne {α β : Type} [DecidableEq α]
    (d : List (α × β)) (k k' : α) (v : β) (h : k' ≠ k) :
    assocGet (assocSet d k v) k' = assocGet d k' := by
  induction d with
  | nil =>
      simp only [assocSet, assocGet]
      rw [if_neg (Ne.symm h)]
  | cons hd rest ih =>
      obtain ⟨k₀, v₀⟩ := hd
      by_cases h₀ : k₀ = k
      · subst h₀
        simp only [assocSet, if_pos rfl, assocGet, if_neg (Ne.symm h)]
      · simp only [assocSet, if_neg h₀]
        by_cases h₁ : k₀ = k'
        · simp [assocGet, h₁]
        · simp [assocGet, h₁, ih]

theorem assocGet_dictUpdate (d e : Fields) (k : String) :
    assocGet (dictUpdate d e) k =
      match dictLast e k with
      | some w => some w
      | none => assocGet d k := by
  induction e generalizing d with
  | nil => simp [dictUpdate, dictLast]
  | cons hd rest ih =>
      obtain ⟨k', v'⟩ := hd
      simp only [dictUpdate, dictLast, ih (assocSet d k' v')]
      cases hlast : dictLast rest k with
      | some w => simp
      | none =>
          by_cases h : k' = k
          · subst h
            simp [assocGet_assocSet_self]
          · simp [h, assocGet_assocSet_ne d _ _ _ (fun hh => h hh.symm)]

theorem dictLast_not_mem (e : Fields) (k : String)
    (h : k ∉ e.map Prod.fst) : dictLast e k = none := by
  induction e with
  | nil => rfl
  | cons hd rest ih =>
      obtain ⟨k', v'⟩ := hd
      simp only [List.map_cons, List.mem_cons] at h
      push_neg at h
      simp only [dictLast, ih h.2]
      rw [if_neg (fun hh => h.1 hh.symm)]

theorem mem_keys_assocSet (d : Fields) (k v x : String) :
    x ∈ (assocSet d k v).map Prod.fst ↔ x ∈ d.map Prod.fst ∨ x = k := by
  induction d with
  | nil => simp [assocSet]
  | cons hd rest ih =>
      obtain ⟨k', v'⟩ := hd
      by_cases h : k' = k
      · subst h
        simp only [assocSet, List.map_cons, List.mem_cons, if_true]
        tauto
      · simp only [assocSet, List.map_cons, List.mem_cons]
        rw [if_neg h]
        simp only [List.map_cons, List.mem_cons, ih]
        tauto

theorem keysNodup_assocSet (d : Fields) (k v : String)
    (h : (d.map Prod.fst).Nodup) : ((assocSet d k v).map Prod.fst).Nodup := by
  induction d with
  | nil => simp [assocSet]
  | cons hd rest ih =>
      obtain ⟨k', v'⟩ := hd
      simp only [List.map_cons, List.nodup_cons] at h
      by_cases hk : k' = k
      · subst hk
        simp only [assocSet, if_true, List.map_cons, List.nodup_cons]
        exact ⟨h.1, h.2⟩
      · simp only [assocSet]
        rw [if_neg hk]
        simp only [List.map_cons, List.nodup_cons]
        refine ⟨?_, ih h.2⟩
        rw [mem_keys_assocSet]
        rintro (hh | hh)
        · exact h.1 hh
        · exact hk hh

theorem keysNodup_dictUpdate (d e : Fields)
    (h : (d.map Prod.fst).Nodup) : ((dictUpdate d e).map Prod.fst).Nodup := by
  induction e generalizing d with
  | nil => exact h
  | cons hd rest ih =>
      obtain ⟨k, v⟩ := hd
      exact ih _ (keysNodup_assocSet d k v h)

theorem dictLast_eq_assocGet (l : Fields) (k : String)
    (h : (l.map Prod.fst).Nodup) : dictLast l k = assocGet l k := by
  induction l with
  | nil => rfl
  | cons hd rest ih =>
      obtain ⟨k', v'⟩ := hd
      simp only [List.map_cons, List.nodup_cons] at h
      by_cases hk : k' = k
      · subst hk
        simp only [dictLast, assocGet, dictLast_not_mem rest k' h.1, if_true]
      · simp only [dictLast, assocGet, ih h.2]
        rw [if_neg hk, if_neg hk]
        cases hx : assocGet rest k with
        | none => simp
        | some w => simp

theorem dictLast_eq_none_iff (l : Fields) (k : String) :
    dictLast l k = none ↔ k ∉ l.map Prod.fst := by
  induction l with
  | nil => simp [dictLast]
  | cons hd rest ih =>
      obtain ⟨k', v'⟩ := hd
      simp only [dictLast, List.map_cons, List.mem_cons]
      cases hlast : dictLast rest k with
      | some w =>
          have hk : k ∈ rest.map Prod.fst := by
            by_contra hc
            have hnone := ih.mpr hc
            rw [hlast] at hnone
            exact Option.noConfusion hnone
          constructor
          · intro hcontra; exact Option.noConfusion hcontra
          · intro hno; exact absurd (Or.inr hk) hno
      | none =>
          constructor
          · intro h
            rintro (h1 | h2)
            · rw [if_pos h1.symm] at h; exact Option.noConfusion h
            · exact (ih.mp hlast) h2
          · intro h
            push_neg at h
            rw [if_neg (fun hh => h.1 hh.symm)]

/-- The key fields lemma: the record stored for `episode_id` after
`update_episode` evaluates, at each key, to the partial's (last) value when
the key occurs in the partial, to the fresh stamp at `"updated_at"` when the
partial does not mention it, and to the previous value otherwise. -/
theorem assocGet_update_record (cur data : Fields) (now k : String) :
    assocGet (dictUpdate cur (stampedFields now data)) k =
      match dictLast data k with
      | some w => some w
      | none => if k = "updated_at" then some now else assocGet cur k := by
  have hnd : ((dictUpdate [("updated_at", now)] data).map Prod.fst).Nodup := by
    refine keysNodup_dictUpdate _ _ ?_
    simp
  rw [stampedFields, assocGet_dictUpdate,
    dictLast_eq_assocGet _ _ hnd, assocGet_dictUpdate]
  cases hlast : dictLast data k with
  | some w => simp
  | none =>
      by_cases hk : k = "updated_at"
      · subst hk
        simp [assocGet]
      · simp only [assocGet]
        rw [if_neg (fun hh => hk hh.symm), if_neg hk]

/-! ### Claim theorems about the state store -/

/-- **C9 counterexample.**  The claim says `update_episode` *always* stamps
`updated_at` with the current time.  The dict literal in the source is
`{"updated_at": now, **data}`, in which a key `"updated_at"` occurring in
the partial overrides the stamp: here the upsert runs at time `"t-new"` but
the stored `updated_at` is the partial's `"t-old"`. -/
theorem C9_counterexample :
    (assocGet ((get_episode (update_episode
        { episodes := [("e1", [("state", "transcribing"), ("updated_at", "t0")])],
          last_check_time := none }
        "e1" [("updated_at", "t-old")] "t-new") "e1").getD []) "updated_at"
      = some "t-old") ∧
    (assocGet ((get_episode (update_episode
        { episodes := [("e1", [("state", "transcribing"), ("updated_at", "t0")])],
          last_check_time := none }
        "e1" [("updated_at", "t-old")] "t-new") "e1").getD []) "updated_at"
      ≠ some "t-new") := by
  constructor
  · rfl
  · decide

/-- **C9 (amended).**  `update_episode` merges the partial into the existing
record: every key not mentioned in the partial keeps its previous value, the
partial's keys take the partial's (last) value, `updated_at` is stamped with
the current time *unless the partial itself contains an `updated_at` entry*
(which then wins, since the stamp is merged before the partial), a fresh
record is created for an unknown id, and no other episode is touched. -/
theorem C9_amended (st : StoreState) (episode_id : String) (data : Fields)
    (now : String) :
    (∃ rec, get_episode (update_episode st episode_id data now) episode_id = some rec ∧
      (∀ k, k ∉ data.map Prod.fst → k ≠ "updated_at" →
        assocGet rec k = assocGet ((get_episode st episode_id).getD []) k) ∧
      ("updated_at" ∉ data.map Prod.fst → assocGet rec "updated_at" = some now) ∧
      (∀ k, k ∈ data.map Prod.fst → assocGet rec k = dictLast data k)) ∧
    (∀ id', id' ≠ episode_id →
      get_episode (update_episode st episode_id data now) id' = get_episode st id') := by
  constructor
  · refine ⟨dictUpdate ((get_episode st episode_id).getD []) (stampedFields now data), ?_, ?_, ?_, ?_⟩
    · simp [update_episode, get_episode, assocGet_assocSet_self]
    · intro k hk hk'
      rw [assocGet_update_record]
      rw [dictLast_not_mem data k hk]
      simp [hk']
    · intro hk
      rw [assocGet_update_record]
      rw [dictLast_not_mem data _ hk]
      simp
    · intro k hk
      rw [assocGet_update_record]
      cases hlast : dictLast data k with
      | some w => simp
      | none => exact absurd hk ((dictLast_eq_none_iff data k).1 hlast)
  · intro id' h
    simp [update_episode, get_episode, assocGet_assocSet_ne _ _ _ _ h]

/-- **C9 amended, witness**: concrete instance exercising the stamping branch
and the merge branch of the amended statement. -/
theorem C9_amended_witness :
    assocGet ((get_episode (update_episode
        { episodes := [("e1", [("state", "transcribing"), ("title", "T")])],
          last_check_time := none }
        "e1" [("state", "transcribed")] "t9") "e1").getD []) "updated_at" = some "t9" ∧
    assocGet ((get_episode (update_episode
        { episodes := [("e1", [("state", "transcribing"), ("title", "T")])],
          last_check_time := none }
        "e1" [("state", "transcribed")] "t9") "e1").getD []) "title" = some "T" := by
  have h := C9_amended
    { episodes := [("e1", [("state", "transcribing"), ("title", "T")])],
      last_check_time := none }
    "e1" [("state", "transcribed")] "t9"
  obtain ⟨⟨rec, hrec, hframe, hstamp, _⟩, _⟩ := h
  refine ⟨?_, ?_⟩
  · rw [hrec]
    simpa using hstamp (by decide)
  · rw [hrec]
    have := hframe "title" (by decide) (by decide)
    simpa using this

/-- **C3 counterexample.**  The claim says a failed synchronous write in
`update_episode` must not silently return as if it had succeeded with
unpersisted state.  In the source, `_save_state` wraps the write in
`try/except` and only logs the failure, so the call *does* return normally
(`raised = false`) with the merged record only in memory: with a failing
`open` the state file keeps the stale previous store, and with `json.dump`
raising mid-write the file is left a truncated prefix of the new
serialization — in neither case does it hold the new store. -/
theorem C3_counterexample :
    ((update_episode_run WriteOutcome.openFailed freshState
        (DiskFile.content freshState) "e1"
        [("state", "transcribing")] "t1").raised = false) ∧
    ((update_episode_run WriteOutcome.openFailed freshState
        (DiskFile.content freshState) "e1"
        [("state", "transcribing")] "t1").mem ≠ freshState) ∧
    ((update_episode_run WriteOutcome.openFailed freshState
        (DiskFile.content freshState) "e1"
        [("state", "transcribing")] "t1").disk = DiskFile.content freshState) ∧
    ((update_episode_run (WriteOutcome.dumpFailed 7) freshState
        (DiskFile.content freshState) "e1"
        [("state", "transcribing")] "t1").raised = false) ∧
    ((update_episode_run (WriteOutcome.dumpFailed 7) freshState
        (DiskFile.content freshState) "e1" [("state", "transcribing")]
        "t1").disk = DiskFile.truncated
          (update_episode freshState "e1" [("state", "transcribing")] "t1")
          7) := by
  refine ⟨rfl, ?_, rfl, rfl, rfl⟩
  decide

/-- **C3 (amended).**  A failing serialization is caught and logged inside
`_save_state`, so it is *not* fatal to the upsert: for every write outcome
`update_episode` returns normally (`raised = false`) with the merged record
present in the in-memory store.  The state file afterwards holds, branch by
branch: the new store's serialization when `open` and `json.dump` both
succeed; its previous contents when `open` itself fails; and — the file
being opened with truncating mode `'w'` and written in place, with no
temp-file/atomic-replace step — a truncated prefix of the new serialization
when `json.dump` fails mid-write. -/
theorem C3_amended (st : StoreState) (disk : DiskFile)
    (episode_id : String) (data : Fields) (now : String) :
    (∀ w, (update_episode_run w st disk episode_id data now).raised = false ∧
      (update_episode_run w st disk episode_id data now).mem
        = update_episode st episode_id data now) ∧
    ((update_episode_run WriteOutcome.ok st disk episode_id data now).disk
        = DiskFile.content (update_episode st episode_id data now)) ∧
    ((update_episode_run WriteOutcome.openFailed st disk episode_id data
        now).disk = disk) ∧
    (∀ n, (update_episode_run (WriteOutcome.dumpFailed n) st disk episode_id
        data now).disk
        = DiskFile.truncated (update_episode st episode_id data now) n) :=
  ⟨fun _ => ⟨rfl, rfl⟩, rfl, rfl, fun _ => rfl⟩

/-- **C10.**  If the state file exists but `json.load` fails
(`parsed = none`), `_load_state` catches the exception and returns the fresh
empty state, so every previously persisted record is invisible to
`get_episode`, `is_completed` and `is_transcribed`. -/
theorem C10_load_failure_resets (episode_id : String) :
    load_state true none = freshState ∧
    get_episode (load_state true none) episode_id = none ∧
    is_completedS (load_state true none) episode_id = false ∧
    is_transcribedS (load_state true none) episode_id = false := by
  refine ⟨rfl, rfl, rfl, rfl⟩

/-! ## `LLMManager._extract_json` (`llm_client.py`, lines 492-514)

Modelled on `List Char`.  Tier 1 is `json.loads(text.strip())`, embedded as a
recogniser `jsonParses` for the grammar accepted by Python's `json.loads`
(strict strings, strict numbers, plus the `NaN` / `Infinity` extensions that
`json.loads` accepts by default).  Tier 2 is the regex
search for a ```json fenced block (leftmost opening marker, lazy group ending
at the first closing marker, then `.strip()`).  Tier 3 is the greedy regex
over braces with `re.DOTALL`: it spans from the *first* opening brace to the
*last* closing brace of the whole text. -/

/-- Python `str.strip()` default whitespace. -/
def pyWs (c : Char) : Bool :=
  c = ' ' || c = '\t' || c = '\n' || c = '\r' || c = '\x0b' || c = '\x0c'

def pyStrip (l : List Char) : List Char :=
  ((l.dropWhile pyWs).reverse.dropWhile pyWs).reverse

/-- Inter-token whitespace accepted by `json.loads`. -/
def jWs (c : Char) : Bool := c = ' ' || c = '\t' || c = '\n' || c = '\r'

def jskipWs (l : List Char) : List Char := l.dropWhile jWs

def isHexDig (c : Char) : Bool :=
  c.isDigit || ('a' ≤ c && c ≤ 'f') || ('A' ≤ c && c ≤ 'F')

/-- Body of a JSON string after the opening quote; returns the remaining
input on success. -/
def jstr : Nat → List Char → Option (List Char)
  | 0, _ => none
  | _ + 1, [] => none
  | fuel + 1, c :: rest =>
      if c = '"' then some rest
      else if c = '\\' then
        match rest with
        | [] => none
        | e :: rest2 =>
            if e = '"' || e = '\\' || e = '/' || e = 'b' || e = 'f' || e = 'n'
                || e = 'r' || e = 't' then
              jstr fuel rest2
            else if e = 'u' then
              match rest2 with
              | h1 :: h2 :: h3 :: h4 :: rest3 =>
                  if isHexDig h1 && isHexDig h2 && isHexDig h3 && isHexDig h4 then
                    jstr fuel rest3
                  else none
              | _ => none
            else none
      else if c.val < 32 then none
      else jstr fuel rest

/-- Integer part: `0` or a nonzero digit followed by digits. -/
def jint : List Char → Option (List Char)
  | [] => none
  | c :: rest =>
      if c = '0' then some rest
      else if c.isDigit then some (rest.dropWhile Char.isDigit)
      else none

/-- Optional fraction part. -/
def jfrac (l : List Char) : Option (List Char) :=
  match l with
  | '.' :: rest =>
      if (rest.takeWhile Char.isDigit) = [] then none
      else some (rest.dropWhile Char.isDigit)
  | _ => some l

/-- Optional exponent part. -/
def jexp (l : List Char) : Option (List Char) :=
  match l with
  | c :: rest =>
      if c = 'e' || c = 'E' then
        let rest2 := match rest with
          | s :: r => if s = '+' || s = '-' then r else rest
          | [] => rest
        if (rest2.takeWhile Char.isDigit) = [] then none
        else some (rest2.dropWhile Char.isDigit)
      else some l
  | [] => some l

def jnumBody (m : List Char) : Option (List Char) :=
  (jint m).bind fun r1 => (jfrac r1).bind jexp

def jnum (l : List Char) : Option (List Char) :=
  match l with
  | '-' :: rest => jnumBody rest
  | _ => jnumBody l

/-- Does `m` start with `pat`? -/
def leadsWith : List Char → List Char → Bool
  | [], _ => true
  | _ :: _, [] => false
  | p :: ps, c :: cs => p = c && leadsWith ps cs

def dropLit (pat l : List Char) : Option (List Char) :=
  if leadsWith pat l then some (l.drop pat.length) else none

def litTrue : List Char := ['t', 'r', 'u', 'e']
def litFalse : List Char := ['f', 'a', 'l', 's', 'e']
def litNull : List Char := ['n', 'u', 'l', 'l']
def litNaN : List Char := ['N', 'a', 'N']
def litInf : List Char := ['I', 'n', 'f', 'i', 'n', 'i', 't', 'y']
def litNegInf : List Char := ['-', 'I', 'n', 'f', 'i', 'n', 'i', 't', 'y']

mutual

/-- One JSON value (leading whitespace allowed); returns the rest. -/
def jval : Nat → List Char → Option (List Char)
  | 0, _ => none
  | fuel + 1, l0 =>
      let l := jskipWs l0
      match l with
      | [] => none
      | '{' :: rest => jobjBody fuel (jskipWs rest)
      | '[' :: rest => jarrBody fuel (jskipWs rest)
      | '"' :: rest => jstr (rest.length + 1) rest
      | _ =>
          match dropLit litTrue l with
          | some r => some r
          | none =>
            match dropLit litFalse l with
            | some r => some r
            | none =>
              match dropLit litNull l with
              | some r => some r
              | none =>
                match dropLit litNaN l with
                | some r => some r
                | none =>
                  match dropLit litInf l with
                  | some r => some r
                  | none =>
                    match dropLit litNegInf l with
                    | some r => some r
                    | none => jnum l

/-- After `\x7b` and whitespace: an empty object or its members. -/
def jobjBody : Nat → List Char → Option (List Char)
  | 0, _ => none
  | fuel + 1, l =>
      match l with
      | '}' :: rest => some rest
      | _ => jmembers fuel l

/-- One or more `"key": value` members, ending at `\x7d`. -/
def jmembers : Nat → List Char → Option (List Char)
  | 0, _ => none
  | fuel + 1, l =>
      match l with
      | '"' :: rest =>
          match jstr (rest.length + 1) rest with
          | none => none
          | some r1 =>
              match jskipWs r1 with
              | ':' :: r2 =>
                  match jval fuel r2 with
                  | none => none
                  | some r3 =>
                      match jskipWs r3 with
                      | ',' :: r4 => jmembers fuel (jskipWs r4)
                      | '}' :: r4 => some r4
                      | _ => none
              | _ => none
      | _ => none

/-- After `[` and whitespace: an empty array or its elements. -/
def jarrBody : Nat → List Char → Option (List Char)
  | 0, _ => none
  | fuel + 1, l =>
      match l with
      | ']' :: rest => some rest
      | _ => jelems fuel l

/-- One or more array elements, ending at `]`. -/
def jelems : Nat → List Char → Option (List Char)
  | 0, _ => none
  | fuel + 1, l =>
      match jval fuel l with
      | none => none
      | some r1 =>
          match jskipWs r1 with
          | ',' :: r2 => jelems fuel r2
          | ']' :: r2 => some r2
          | _ => none

end

/-- `json.loads(text)` succeeds: one value followed only by whitespace. -/
def jsonParses (l : List Char) : Bool :=
  match jval (2 * l.length + 4) l with
  | some r => (jskipWs r).isEmpty
  | none => false

def btick : Char := Char.ofNat 96

/-- The literal chars of the opening marker of a ```json fenced block. -/
def fenceOpen : List Char := [btick, btick, btick, 'j', 's', 'o', 'n']

/-- The closing marker. -/
def fenceMark : List Char := [btick, btick, btick]

/-- First index at which `pat` occurs in the list. -/
def findSub (pat : List Char) : List Char → Option Nat
  | [] => if leadsWith pat [] then some 0 else none
  | c :: rest =>
      if leadsWith pat (c :: rest) then some 0
      else (findSub pat rest).map (· + 1)

/-- Tier 2 of `_extract_json`: `re.search` of the fenced-block pattern with
`re.DOTALL` — leftmost opening marker, lazy group ending at the first closing
marker after it, then `.strip()` of the group. -/
def fencedBlock (l : List Char) : Option (List Char) :=
  match findSub fenceOpen l with
  | none => none
  | some i =>
      let after := l.drop (i + fenceOpen.length)
      match findSub fenceMark after with
      | none => none
      | some j => some (pyStrip (after.take j))

/-- Not an opening brace (scan predicate for the brace tiers). -/
def notOpenBrace (c : Char) : Bool := c ≠ '{'

/-- Not a closing brace. -/
def notCloseBrace (c : Char) : Bool := c ≠ '}'

/-- Tier 3 of `_extract_json`: the greedy `re.DOTALL` brace regex, i.e. the
slice of the text from its *first* opening brace through its *last* closing
brace, then `.strip()` (which is the identity on such a slice).
`fromOpen` is the suffix starting at the first opening brace; cutting its
reverse at the first closing brace retains the slice through the last one. -/
def braceSlice (l : List Char) : Option (List Char) :=
  let fromOpen := l.dropWhile notOpenBrace
  let revCut := fromOpen.reverse.dropWhile notCloseBrace
  if fromOpen = [] then none
  else if revCut = [] then none
  else some (pyStrip revCut.reverse)

/-- `LLMManager._extract_json`: strict parse of the stripped text, else the
first fenced block, else the greedy brace slice, else `None`. -/
def extract_json (l : List Char) : Option (List Char) :=
  if jsonParses (pyStrip l) then some (pyStrip l)
  else
    match fencedBlock l with
    | some m => some m
    | none => braceSlice l

/-- Balanced scan used by the *claim's* description of tier 3: position of
the close matching the first open, scanning with a depth counter. -/
def balancedCloseAux : List Char → Nat → Nat → Option Nat
  | [], _, _ => none
  | c :: rest, depth, pos =>
      if c = '{' then balancedCloseAux rest (depth + 1) (pos + 1)
      else if c = '}' then
        if depth = 1 then some pos
        else balancedCloseAux rest (depth - 1) (pos + 1)
      else balancedCloseAux rest depth (pos + 1)

/-- Modelled from the claim's words, *not* from the source: tier 3 as "the
first top-level balanced-brace object literal found in the text" (first
opening brace through its matching balanced close), to be compared against
the source's greedy `braceSlice`. -/
def extract_json_spec (l : List Char) : Option (List Char) :=
  if jsonParses (pyStrip l) then some (pyStrip l)
  else
    match fencedBlock l with
    | some m => some m
    | none =>
        let fromOpen := l.dropWhile notOpenBrace
        match fromOpen with
        | [] => none
        | _ :: _ =>
            match balancedCloseAux fromOpen 0 0 with
            | none => none
            | some pos => some (fromOpen.take (pos + 1))

/-! ### Characterisations of the extraction tiers -/

/-- A ```json fenced block occurs somewhere in the text. -/
def HasFence (l : List Char) : Prop :=
  ∃ pre mid post, l = pre ++ fenceOpen ++ mid ++ fenceMark ++ post

/-- An opening brace occurs strictly before a closing brace. -/
def HasBracePair (l : List Char) : Prop :=
  ∃ pre mid post, l = pre ++ '{' :: (mid ++ '}' :: post)

theorem leadsWith_iff (pat m : List Char) :
    leadsWith pat m = true ↔ ∃ s, m = pat ++ s := by
  induction pat generalizing m with
  | nil => simp [leadsWith]
  | cons p ps ih =>
      cases m with
      | nil => simp [leadsWith]
      | cons c cs =>
          simp only [leadsWith, Bool.and_eq_true, decide_eq_true_eq, ih,
            List.cons_append]
          constructor
          · rintro ⟨rfl, s, rfl⟩
            exact ⟨s, rfl⟩
          · rintro ⟨s, hs⟩
            injection hs with h1 h2
            exact ⟨h1.symm, s, h2⟩

theorem findSub_leads (pat : List Char) :
    ∀ (l : List Char) (i : Nat), findSub pat l = some i →
      leadsWith pat (l.drop i) = true := by
  intro l
  induction l with
  | nil =>
      intro i h
      simp only [findSub] at h
      split at h
      · next hl =>
          injection h with h'
          subst h'
          exact hl
      · exact Option.noConfusion h
  | cons c rest ih =>
      intro i h
      simp only [findSub] at h
      split at h
      · next hl =>
          injection h with h'
          subst h'
          exact hl
      · next hl =>
          cases hf : findSub pat rest with
          | none => rw [hf] at h; simp at h
          | some k =>
              rw [hf] at h
              simp at h
              subst h
              exact ih k hf

theorem findSub_exists (pat : List Char) :
    ∀ (l : List Char) (p : Nat), leadsWith pat (l.drop p) = true →
      ∃ i, findSub pat l = some i ∧ i ≤ p := by
  intro l
  induction l with
  | nil =>
      intro p hp
      simp only [List.drop_nil] at hp
      exact ⟨0, by simp [findSub, hp], Nat.zero_le p⟩
  | cons c rest ih =>
      intro p hp
      by_cases hl : leadsWith pat (c :: rest) = true
      · exact ⟨0, by simp [findSub, hl], Nat.zero_le p⟩
      · cases p with
        | zero => exact absurd hp hl
        | succ p' =>
            rw [List.drop_succ_cons] at hp
            obtain ⟨k, hk, hkp⟩ := ih p' hp
            refine ⟨k + 1, ?_, Nat.succ_le_succ hkp⟩
            simp [findSub, hl, hk]

theorem fencedBlock_eq_none_iff (l : List Char) :
    fencedBlock l = none ↔ ¬ HasFence l := by
  constructor
  · intro h hF
    obtain ⟨pre, mid, post, rfl⟩ := hF
    have hop : leadsWith fenceOpen
        ((pre ++ fenceOpen ++ mid ++ fenceMark ++ post).drop pre.length) = true := by
      have : pre ++ fenceOpen ++ mid ++ fenceMark ++ post
          = pre ++ (fenceOpen ++ mid ++ fenceMark ++ post) := by
        simp [List.append_assoc]
      rw [this, List.drop_left]
      rw [leadsWith_iff]
      exact ⟨mid ++ fenceMark ++ post, by simp [List.append_assoc]⟩
    obtain ⟨i, hi, hip⟩ := findSub_exists fenceOpen _ _ hop
    have hcl : leadsWith fenceMark
        ((pre ++ fenceOpen ++ mid ++ fenceMark ++ post).drop
          (pre.length + fenceOpen.length + mid.length)) = true := by
      have : pre ++ fenceOpen ++ mid ++ fenceMark ++ post
          = (pre ++ fenceOpen ++ mid) ++ (fenceMark ++ post) := by
        simp [List.append_assoc]
      rw [this]
      have hlen : pre.length + fenceOpen.length + mid.length
          = (pre ++ fenceOpen ++ mid).length := by
        simp [List.length_append]
        omega
      rw [hlen, List.drop_left]
      rw [leadsWith_iff]
      exact ⟨post, rfl⟩
    have hcl' : leadsWith fenceMark
        (((pre ++ fenceOpen ++ mid ++ fenceMark ++ post).drop (i + fenceOpen.length)).drop
          (pre.length + fenceOpen.length + mid.length - (i + fenceOpen.length))) = true := by
      rw [List.drop_drop]
      have harith : i + fenceOpen.length
          + (pre.length + fenceOpen.length + mid.length - (i + fenceOpen.length))
          = pre.length + fenceOpen.length + mid.length := by
        omega
      rw [harith]
      exact hcl
    obtain ⟨j, hj, _⟩ := findSub_exists fenceMark _ _ hcl'
    simp only [fencedBlock, hi, hj] at h
    exact Option.noConfusion h
  · intro hF
    by_contra h
    have h' : fencedBlock l ≠ none := h
    apply hF
    cases ho : findSub fenceOpen l with
    | none => exact absurd (by simp only [fencedBlock, ho]) h'
    | some i =>
        cases hc : findSub fenceMark (l.drop (i + fenceOpen.length)) with
        | none => exact absurd (by simp only [fencedBlock, ho, hc]) h'
        | some j =>
            have hlead1 := findSub_leads fenceOpen l i ho
            rw [leadsWith_iff] at hlead1
            obtain ⟨s, hs⟩ := hlead1
            have hlead2 := findSub_leads fenceMark _ j hc
            rw [leadsWith_iff] at hlead2
            obtain ⟨t, ht⟩ := hlead2
            refine ⟨l.take i, (l.drop (i + fenceOpen.length)).take j, t, ?_⟩
            have h1 : l = l.take i ++ (fenceOpen ++ s) := by
              rw [← hs, List.take_append_drop]
            have hs' : s = l.drop (i + fenceOpen.length) := by
              calc s = (fenceOpen ++ s).drop fenceOpen.length := (List.drop_left _ _).symm
                _ = (l.drop i).drop fenceOpen.length := by rw [hs]
                _ = l.drop (i + fenceOpen.length) := by rw [List.drop_drop]
            have h2 : l.drop (i + fenceOpen.length)
                = (l.drop (i + fenceOpen.length)).take j ++ (fenceMark ++ t) := by
              rw [← ht, List.take_append_drop]
            calc l = l.take i ++ (fenceOpen ++ s) := h1
              _ = l.take i ++ (fenceOpen ++ l.drop (i + fenceOpen.length)) := by rw [hs']
              _ = l.take i ++ (fenceOpen ++ ((l.drop (i + fenceOpen.length)).take j ++ (fenceMark ++ t))) := by
                    nth_rewrite 1 [h2]
                    rfl
              _ = l.take i ++ fenceOpen ++ (l.drop (i + fenceOpen.length)).take j ++ fenceMark ++ t := by
                    simp [List.append_assoc]

theorem hasBracePair_cons_iff (c : Char) (rest : List Char) :
    HasBracePair (c :: rest) ↔
      (c = '{' ∧ '}' ∈ rest) ∨ HasBracePair rest := by
  constructor
  · rintro ⟨pre, mid, post, heq⟩
    cases pre with
    | nil =>
        simp only [List.nil_append, List.cons.injEq] at heq
        refine Or.inl ⟨heq.1, ?_⟩
        rw [heq.2]
        simp
    | cons p pre' =>
        simp only [List.cons_append, List.cons.injEq] at heq
        exact Or.inr ⟨pre', mid, post, heq.2⟩
  · rintro (⟨rfl, hmem⟩ | ⟨pre, mid, post, heq⟩)
    · obtain ⟨s, t, hst⟩ := List.append_of_mem hmem
      exact ⟨[], s, t, by simp [hst]⟩
    · exact ⟨c :: pre, mid, post, by simp [heq]⟩

theorem hasBracePair_iff_dropWhile (l : List Char) :
    HasBracePair l ↔
      l.dropWhile notOpenBrace ≠ [] ∧
        '}' ∈ l.dropWhile notOpenBrace := by
  induction l with
  | nil =>
      constructor
      · rintro ⟨pre, mid, post, heq⟩
        exact absurd heq (by simp)
      · rintro ⟨h, _⟩
        exact absurd rfl h
  | cons c rest ih =>
      rw [hasBracePair_cons_iff]
      by_cases hc : c = '{'
      · subst hc
        have hd : ('{' :: rest).dropWhile notOpenBrace = '{' :: rest := by
          rw [List.dropWhile_cons_of_neg]
          decide
        rw [hd]
        constructor
        · rintro (⟨_, hmem⟩ | hbp)
          · exact ⟨by simp, by simp [hmem]⟩
          · rw [ih] at hbp
            obtain ⟨hne, hmem⟩ := hbp
            refine ⟨by simp, ?_⟩
            have : '}' ∈ rest := by
              have := List.dropWhile_sublist (l := rest) (p := notOpenBrace)
              exact this.mem hmem
            simp [this]
        · rintro ⟨_, hmem⟩
          simp only [List.mem_cons] at hmem
          rcases hmem with hmem | hmem
          · exact absurd hmem.symm (by decide)
          · exact Or.inl ⟨rfl, hmem⟩
      · have hd : (c :: rest).dropWhile notOpenBrace =
            rest.dropWhile notOpenBrace := by
          rw [List.dropWhile_cons_of_pos]
          simp [notOpenBrace, hc]
        rw [hd, ← ih]
        constructor
        · rintro (⟨hceq, _⟩ | hbp)
          · exact absurd hceq hc
          · exact hbp
        · exact Or.inr

theorem dropWhile_head_not (p : Char → Bool) :
    ∀ (l : List Char) (x : Char) (xs : List Char),
      l.dropWhile p = x :: xs → p x = false := by
  intro l
  induction l with
  | nil => intro x xs h; exact absurd h (by simp)
  | cons c rest ih =>
      intro x xs h
      by_cases hp : p c = true
      · rw [List.dropWhile_cons_of_pos hp] at h
        exact ih x xs h
      · rw [List.dropWhile_cons_of_neg (by simpa using hp)] at h
        injection h with h1 _
        subst h1
        simpa using hp

theorem braceSlice_eq_none_iff (l : List Char) :
    braceSlice l = none ↔ ¬ HasBracePair l := by
  rw [hasBracePair_iff_dropWhile]
  simp only [braceSlice]
  by_cases h1 : l.dropWhile notOpenBrace = []
  · rw [if_pos h1]
    simp [h1]
  · rw [if_neg h1]
    by_cases h2 : (l.dropWhile notOpenBrace).reverse.dropWhile notCloseBrace = []
    · rw [if_pos h2]
      have hall := List.dropWhile_eq_nil_iff.mp h2
      constructor
      · rintro _ ⟨_, hmem⟩
        have hmr : '}' ∈ (l.dropWhile notOpenBrace).reverse :=
          List.mem_reverse.mpr hmem
        have := hall '}' hmr
        simp [notCloseBrace] at this
      · intro _
        rfl
    · rw [if_neg h2]
      constructor
      · intro hcontra
        exact absurd hcontra (by simp)
      · intro hn
        exfalso
        apply hn
        refine ⟨h1, ?_⟩
        cases hrc : (l.dropWhile notOpenBrace).reverse.dropWhile notCloseBrace with
        | nil => exact absurd hrc h2
        | cons y ys =>
            have hy : y = '}' := by
              simpa [notCloseBrace] using dropWhile_head_not _ _ y ys hrc
            have hmem : y ∈ (l.dropWhile notOpenBrace).reverse := by
              have hsub := List.dropWhile_sublist
                (l := (l.dropWhile notOpenBrace).reverse)
                (p := notCloseBrace)
              exact hsub.mem (by simp [hrc])
            rw [hy] at hmem
            exact List.mem_reverse.mp hmem

theorem braceSlice_head_last (l r : List Char) (h : braceSlice l = some r) :
    r.head? = some '{' ∧ r.getLast? = some '}' := by
  simp only [braceSlice] at h
  by_cases h1 : l.dropWhile notOpenBrace = []
  · rw [if_pos h1] at h
    exact Option.noConfusion h
  · rw [if_neg h1] at h
    by_cases h2 : (l.dropWhile notOpenBrace).reverse.dropWhile notCloseBrace = []
    · rw [if_pos h2] at h
      exact Option.noConfusion h
    · rw [if_neg h2] at h
      injection h with h'
      cases hd : l.dropWhile notOpenBrace with
      | nil => exact absurd hd h1
      | cons x xs =>
          cases hrc : (l.dropWhile notOpenBrace).reverse.dropWhile notCloseBrace with
          | nil => exact absurd hrc h2
          | cons y ys =>
              have hx : x = '{' := by
                simpa [notOpenBrace] using dropWhile_head_not _ _ x xs hd
              have hy : y = '}' := by
                simpa [notCloseBrace] using dropWhile_head_not _ _ y ys hrc
              -- the retained slice is a prefix of the suffix starting at the
              -- first opening brace, so its head is that brace
              have hsplit : (l.dropWhile notOpenBrace).reverse
                  = (l.dropWhile notOpenBrace).reverse.takeWhile notCloseBrace
                    ++ (y :: ys) := by
                rw [← hrc, List.takeWhile_append_dropWhile]
              have hfo : l.dropWhile notOpenBrace
                  = (y :: ys).reverse
                    ++ ((l.dropWhile notOpenBrace).reverse.takeWhile notCloseBrace).reverse := by
                have := congrArg List.reverse hsplit
                simpa using this
              have hhead : ((y :: ys).reverse).head? = some x := by
                cases hyr : (y :: ys).reverse with
                | nil => exact absurd hyr (by simp)
                | cons z zs =>
                    rw [hyr] at hfo
                    rw [hd] at hfo
                    simp only [List.cons_append, List.cons.injEq] at hfo
                    simp [hfo.1]
              have hlast : ((y :: ys).reverse).getLast? = some y := by
                simp
              have hstrip : pyStrip ((y :: ys).reverse) = (y :: ys).reverse := by
                unfold pyStrip
                have hstep1 : ((y :: ys).reverse).dropWhile pyWs = (y :: ys).reverse := by
                  cases hyr : (y :: ys).reverse with
                  | nil => simp
                  | cons z zs =>
                      have hz : z = x := by
                        rw [hyr] at hhead
                        simpa using hhead
                      rw [List.dropWhile_cons_of_neg]
                      rw [hz, hx]
                      decide
                rw [hstep1]
                have hstep2 : ((y :: ys).reverse).reverse.dropWhile pyWs
                    = ((y :: ys).reverse).reverse := by
                  simp only [List.reverse_reverse]
                  rw [List.dropWhile_cons_of_neg]
                  rw [show y = '}' from hy]
                  decide
                rw [hstep2]
                simp
              rw [← h']
              rw [hrc]
              rw [hstrip]
              refine ⟨?_, ?_⟩
              · rw [hhead, hx]
              · rw [hlast, hy]

/-! ### Claim theorems about `_extract_json` -/

/-- **C6 counterexample.**  The claim describes tier 3 as "the first
top-level balanced-brace object literal found in the text".  The source's
third tier is the greedy regex `\x7b.*\x7d` with `re.DOTALL`, which spans from
the first opening brace to the *last* closing brace.  On
`a {"x":1} b {"y":2}` the code returns the whole span
`{"x":1} b {"y":2}` — which differs from the first balanced object
`{"x":1}` and is not even valid JSON. -/
theorem C6_counterexample :
    extract_json
        ['a', ' ', '{', '"', 'x', '"', ':', '1', '}', ' ', 'b', ' ',
         '{', '"', 'y', '"', ':', '2', '}']
      = some ['{', '"', 'x', '"', ':', '1', '}', ' ', 'b', ' ',
              '{', '"', 'y', '"', ':', '2', '}'] ∧
    extract_json_spec
        ['a', ' ', '{', '"', 'x', '"', ':', '1', '}', ' ', 'b', ' ',
         '{', '"', 'y', '"', ':', '2', '}']
      = some ['{', '"', 'x', '"', ':', '1', '}'] ∧
    extract_json
        ['a', ' ', '{', '"', 'x', '"', ':', '1', '}', ' ', 'b', ' ',
         '{', '"', 'y', '"', ':', '2', '}']
      ≠ extract_json_spec
        ['a', ' ', '{', '"', 'x', '"', ':', '1', '}', ' ', 'b', ' ',
         '{', '"', 'y', '"', ':', '2', '}'] ∧
    jsonParses ['{', '"', 'x', '"', ':', '1', '}', ' ', 'b', ' ',
                '{', '"', 'y', '"', ':', '2', '}'] = false := by
  refine ⟨by decide, by decide, by decide, by decide⟩

/-- **C6 (amended).**  `_extract_json` applies three tiers in order — a
strict JSON parse of the whole stripped text, then extraction of the first
```json fenced code block, then the *greedy* brace span from the first
opening brace to the last closing brace of the text (not a balanced-brace
scan) — and returns `None` exactly when all three tiers miss. -/
theorem C6_amended (l : List Char) :
    (jsonParses (pyStrip l) = true → extract_json l = some (pyStrip l)) ∧
    (∀ m, jsonParses (pyStrip l) = false → fencedBlock l = some m →
      extract_json l = some m) ∧
    (jsonParses (pyStrip l) = false → fencedBlock l = none →
      extract_json l = braceSlice l) ∧
    (extract_json l = none ↔
      jsonParses (pyStrip l) = false ∧ ¬ HasFence l ∧ ¬ HasBracePair l) ∧
    (∀ r, jsonParses (pyStrip l) = false → fencedBlock l = none →
      extract_json l = some r → r.head? = some '{' ∧ r.getLast? = some '}') := by
  refine ⟨?_, ?_, ?_, ?_, ?_⟩
  · intro h
    rw [extract_json, if_pos h]
  · intro m h hf
    rw [extract_json, if_neg (by simp [h]), hf]
  · intro h hf
    rw [extract_json, if_neg (by simp [h]), hf]
  · constructor
    · intro h
      by_cases h1 : jsonParses (pyStrip l) = true
      · rw [extract_json, if_pos h1] at h
        exact Option.noConfusion h
      · refine ⟨by simpa using h1, ?_, ?_⟩
        · rw [extract_json, if_neg (by simpa using h1)] at h
          cases hf : fencedBlock l with
          | none => exact (fencedBlock_eq_none_iff l).mp hf
          | some m => rw [hf] at h; exact Option.noConfusion h
        · rw [extract_json, if_neg (by simpa using h1)] at h
          cases hf : fencedBlock l with
          | none =>
              rw [hf] at h
              exact (braceSlice_eq_none_iff l).mp h
          | some m => rw [hf] at h; exact Option.noConfusion h
    · rintro ⟨h1, h2, h3⟩
      rw [extract_json, if_neg (by simp [h1]),
        (fencedBlock_eq_none_iff l).mpr h2,
        (braceSlice_eq_none_iff l).mpr h3]
  · intro r h hf hr
    rw [extract_json, if_neg (by simp [h]), hf] at hr
    exact braceSlice_head_last l r hr

/-- **C6 amended, witness**: tier 1 fires on a bare JSON number; on a text
with braces but no fence and no parse, the result is the brace slice. -/
theorem C6_amended_witness :
    extract_json ['7'] = some (pyStrip ['7']) ∧
    extract_json ['a', '{', '1', '}'] = braceSlice ['a', '{', '1', '}'] :=
  ⟨(C6_amended ['7']).1 (by decide),
   (C6_amended ['a', '{', '1', '}']).2.2.1 (by decide) (by decide)⟩

/-! ## The orchestrator (`PodcastService`, `podcast_service.py` lines 436-756)

The orchestrator is modelled as pure functions over a service state
(episode map + set of existing transcript files), parameterised by an `Env`
of deterministic adapter oracles.  Determinism matches the claims'
"no change in any adapter's observable state" hypothesis: each oracle is a
fixed function of the request.  Accordingly `wait_for_result` succeeds iff the
task's result is available (`taskDone`), independently of the timeout, which
is still recorded in the call trace.  Timestamp fields are presence flags;
the episode dictionaries are projected onto the fields the orchestrator
reads and writes. -/

/-- `EpisodeState` constants (`podcast_service.py` lines 111-117). -/
def PENDING : String := "pending"

def TRANSCRIBING : String := "transcribing"

def TRANSCRIBED : String := "transcribed"

def COMPLETED : String := "completed"

def TRANSCRIPTION_FAILED : String := "transcription_failed"

/-- One episode record (the per-episode dict in the state store), projected
onto the fields the orchestrator manipulates.  A missing key is `none` / `""`
/ `false`. -/
structure Ep where
  state : String := ""
  record_id : String := ""
  url : String := ""
  title : String := ""
  audio_url : String := ""
  task_id : Option String := none
  transcription_path : Option String := none
  note_path : Option String := none
  error : Option String := none
  transcription_error : Option String := none
  failed_at : Bool := false
  completed_at : Bool := false
deriving DecidableEq

/-- Orchestrator-level service state: the episode map, the set of transcript
files existing in `workspace/`, and the `last_check_time` presence flag. -/
structure SState where
  episodes : List (String × Ep) := []
  files : List String := []
  lastCheck : Bool := false
deriving DecidableEq

/-- Result of `get_episode_info` (`xiaoyuzhou_downloader.py`): `episode_id`
and `audio_url` use `""` for a missing/falsy field; `title` is `none` when
the key is absent (then `process_episode` falls back to the candidate
title). -/
structure EpInfo where
  episode_id : String
  audio_url : String
  title : Option String
deriving DecidableEq

/-- One work-source candidate (`record_id`, `url`, `title`) as passed to
`process_episode`. -/
structure Cand where
  record_id : String
  url : String
  title : String
deriving DecidableEq

/-- Deterministic adapter oracles:
* `resolve` — `get_episode_info(url)`, `none` on failure;
* `submit` — `QwenASRClient.submit_transcription(file_url)`: `some task_id`
  on success, `none` when the submit fails;
* `taskDone` — whether `wait_for_result(task_id, ...)` succeeds (with a fixed
  adapter state the result's availability does not depend on the timeout);
* `writeOk` — whether writing the transcript file at a path succeeds (the
  `try/except` around `json.dump` at lines 601-606);
* `loadOk` — whether `json.load` of the persisted transcript succeeds;
* `renderOk` — whether `MarkdownNoteGenerator.generate` for a title returns
  (vs. raises). -/
structure Env where
  resolve : String → Option EpInfo
  submit : String → Option String
  taskDone : String → Bool
  writeOk : String → Bool
  loadOk : String → Bool
  renderOk : String → Bool

/-- One adapter interaction, as recorded in the run trace. -/
inductive ACall where
  | getEpisodeInfo (url : String)
  | submitCall (fileUrl : String)
  | waitCall (taskId : String) (timeout : Nat)
  | llmCall
  | renderCall (title : String)
deriving DecidableEq

/-! ### State-store operations used by the orchestrator -/

def getEp (s : SState) (eid : String) : Option Ep := assocGet s.episodes eid

def putEp (s : SState) (eid : String) (e : Ep) : SState :=
  { s with episodes := assocSet s.episodes eid e }

def getOrEmpty (s : SState) (eid : String) : Ep := (getEp s eid).getD {}

/-- `StateManager.is_completed` over the projected record. -/
def is_completedE (s : SState) (eid : String) : Bool :=
  match getEp s eid with
  | some e => e.state = COMPLETED
  | none => false

/-- `StateManager.is_transcribed` over the projected record. -/
def is_transcribedE (s : SState) (eid : String) : Bool :=
  match getEp s eid with
  | some e => e.state = TRANSCRIBED || e.state = COMPLETED
  | none => false

/-- `mark_transcribing` (lines 180-188): merge state/ids/urls, keep the other
fields (`dict.update` semantics). -/
def mark_transcribing (s : SState) (eid rid url title audio : String) : SState :=
  putEp s eid { getOrEmpty s eid with
    state := TRANSCRIBING, record_id := rid, url := url,
    title := title, audio_url := audio }

/-- `mark_transcribed` (lines 190-195). -/
def mark_transcribed (s : SState) (eid tid : String) : SState :=
  putEp s eid { getOrEmpty s eid with state := TRANSCRIBED, task_id := some tid }

/-- `set_transcription_path` (lines 202-204). -/
def set_transcription_path (s : SState) (eid p : String) : SState :=
  putEp s eid { getOrEmpty s eid with transcription_path := some p }

/-- `mark_completed` (lines 206-212). -/
def mark_completed (s : SState) (eid notePath : String) : SState :=
  putEp s eid { getOrEmpty s eid with
    state := COMPLETED, note_path := some notePath, completed_at := true }

/-- `mark_failed` (lines 214-219): records the error, *keeps* the state. -/
def mark_failed (s : SState) (eid err : String) : SState :=
  putEp s eid { getOrEmpty s eid with error := some err, failed_at := true }

/-- The `update_episode` call at lines 502-506: state `transcription_failed`
with `error`/`failed_at` (keeps the stored `task_id`). -/
def fail_tf (s : SState) (eid err : String) : SState :=
  putEp s eid { getOrEmpty s eid with
    state := TRANSCRIPTION_FAILED, error := some err, failed_at := true }

/-- The `update_episode` call at lines 580-585: state `transcription_failed`
with the current `task_id` and `transcription_error`/`failed_at`. -/
def fail_wait (s : SState) (eid tid err : String) : SState :=
  putEp s eid { getOrEmpty s eid with
    state := TRANSCRIPTION_FAILED, task_id := some tid,
    transcription_error := some err, failed_at := true }

/-- The `update_episode` call at line 509: record the new `task_id` only. -/
def set_task_id (s : SState) (eid tid : String) : SState :=
  putEp s eid { getOrEmpty s eid with task_id := some tid }

/-- `get_transcription_path` (lines 197-200). -/
def get_transcription_path (s : SState) (eid : String) : Option String :=
  (getEp s eid).bind Ep.transcription_path

def addFile (s : SState) (p : String) : SState := { s with files := p :: s.files }

def hasFile (s : SState) (p : String) : Bool := s.files.contains p

/-- Path of the persisted raw transcript: `workspace/{episode_id}.json`
(line 600). -/
def transcriptPath (eid : String) : String := "workspace/" ++ eid ++ ".json"

/-- One character of `_sanitize_filename`: an illegal filename character
becomes `_`. -/
def sanitizeChar (c : Char) : Char :=
  if c = '<' || c = '>' || c = ':' || c = '"' || c = '/' || c = '\\'
      || c = '|' || c = '?' || c = '*' then '_' else c

/-- `MarkdownNoteGenerator._sanitize_filename` (`markdown_generator.py`
lines 120-129): replace the illegal characters by `_`, truncate to 200. -/
def sanitize_filename (t : String) : String :=
  String.mk ((t.data.map sanitizeChar).take 200)

/-- The note path produced by `MarkdownNoteGenerator.generate` for a title:
`notes/{sanitized title}.md` — deterministic in the title (the `date_str`
computed at line 46 is never used in the filename). -/
def notePathOf (title : String) : String := "notes/" ++ sanitize_filename title ++ ".md"

/-- Truthiness of a stored `task_id` (`episode.get("task_id")`). -/
def optTruthy : Option String → Option String
  | some t => if t = "" then none else some t
  | none => none

/-- Error strings are deterministic per failure site (`str(e)` /
`str(submit_result)` of a deterministic adapter reply). -/
def submitErrMsg : String := "submit failed"

def waitErrMsg : String := "transcription wait failed"

def loadErrMsg : String := "transcript load failed"

def renderErrMsg : String := "render failed"

/-- `PodcastService._generate_notes` (lines 630-702).  Early `return False`
when the stored path is falsy or the file is missing (no marking); an
exception from `json.load` or from the renderer reaches the outer `except`,
which calls `mark_failed` (state preserved).  The LLM section cannot raise
out (inner `try/except` falls back to basic notes) and does not change the
store.  On success the note is rendered at `notePathOf title` and the episode
is marked completed. -/
def generate_notes (env : Env) (s : SState) (eid title : String) :
    SState × Bool × List ACall :=
  match get_transcription_path s eid with
  | none => (s, false, [])
  | some p =>
      if p = "" then (s, false, [])
      else if hasFile s p = false then (s, false, [])
      else if env.loadOk p = false then (mark_failed s eid loadErrMsg, false, [])
      else if env.renderOk title then
        (mark_completed s eid (notePathOf title), true,
          [ACall.llmCall, ACall.renderCall title])
      else
        (mark_failed s eid renderErrMsg, false,
          [ACall.llmCall, ACall.renderCall title])

/-- Lines 577-620 of `process_episode`: from the point where `final_result`
(for task `tid`, success `ok`) has been obtained: on failure persist
`transcription_failed` with the task id; on success write the transcript
file (failure to write is caught and only logged), mark transcribed, set the
path, and generate notes. -/
def afterWait (env : Env) (s : SState) (eid title tid : String) (ok : Bool) :
    SState × Bool × List ACall :=
  if ok = false then
    (fail_wait s eid tid waitErrMsg, false, [])
  else
    let p := transcriptPath eid
    let s1 := if env.writeOk p then addFile s p else s
    let s2 := mark_transcribed s1 eid tid
    let s3 := set_transcription_path s2 eid p
    let r := generate_notes env s3 eid title
    (r.1, r.2.1, r.2.2)

/-- `PodcastService.process_episode` (lines 436-628).  Returns the new state,
the boolean result, and the trace of adapter calls.  Control flow mirrors the
source: resolve the reference; bail out on missing info / `audio_url` /
`episode_id`; snapshot the existing record; skip if completed; go straight to
note generation if transcribed; otherwise run the `transcription_failed`
resume branch (lines 483-515, which can return early on a failed resubmit),
then `mark_transcribing`, then the snapshot-`task_id` branch (lines 523-575),
then `afterWait`. -/
def process_episode (env : Env) (s : SState) (c : Cand) :
    SState × Bool × List ACall :=
  match env.resolve c.url with
  | none => (s, false, [ACall.getEpisodeInfo c.url])
  | some info =>
      if info.audio_url = "" then (s, false, [ACall.getEpisodeInfo c.url])
      else if info.episode_id = "" then (s, false, [ACall.getEpisodeInfo c.url])
      else
        let eid := info.episode_id
        let etitle := info.title.getD c.title
        let snapshot := getEp s eid
        if is_completedE s eid then (s, true, [ACall.getEpisodeInfo c.url])
        else if is_transcribedE s eid then
          let r := generate_notes env s eid etitle
          (r.1, r.2.1, ACall.getEpisodeInfo c.url :: r.2.2)
        else
          -- lines 483-515: transcription_failed resume branch
          let tfr : (SState × List ACall) ⊕ (SState × Bool × List ACall) :=
            match snapshot with
            | some e =>
                if e.state = TRANSCRIPTION_FAILED then
                  match optTruthy e.task_id with
                  | some t =>
                      if env.taskDone t then Sum.inl (s, [ACall.waitCall t 60])
                      else
                        match env.submit info.audio_url with
                        | none =>
                            Sum.inr (fail_tf s eid submitErrMsg, false,
                              [ACall.waitCall t 60, ACall.submitCall info.audio_url])
                        | some t2 =>
                            Sum.inl (set_task_id s eid t2,
                              [ACall.waitCall t 60, ACall.submitCall info.audio_url,
                               ACall.waitCall t2 720])
                  | none => Sum.inl (s, [])
                else Sum.inl (s, [])
            | none => Sum.inl (s, [])
          match tfr with
          | Sum.inr r => (r.1, r.2.1, ACall.getEpisodeInfo c.url :: r.2.2)
          | Sum.inl (s1, tr1) =>
              let s2 := mark_transcribing s1 eid c.record_id c.url c.title info.audio_url
              match optTruthy (snapshot.bind Ep.task_id) with
              | some t =>
                  if env.taskDone t then
                    let r := afterWait env s2 eid etitle t true
                    (r.1, r.2.1,
                      ACall.getEpisodeInfo c.url ::
                        (tr1 ++ [ACall.waitCall t 60] ++ r.2.2))
                  else
                    match env.submit info.audio_url with
                    | none =>
                        (mark_failed s2 eid submitErrMsg, false,
                          ACall.getEpisodeInfo c.url ::
                            (tr1 ++ [ACall.waitCall t 60,
                                     ACall.submitCall info.audio_url]))
                    | some t2 =>
                        let r := afterWait env s2 eid etitle t2 (env.taskDone t2)
                        (r.1, r.2.1,
                          ACall.getEpisodeInfo c.url ::
                            (tr1 ++ [ACall.waitCall t 60,
                                     ACall.submitCall info.audio_url,
                                     ACall.waitCall t2 720] ++ r.2.2))
              | none =>
                  match env.submit info.audio_url with
                  | none =>
                      (mark_failed s2 eid submitErrMsg, false,
                        ACall.getEpisodeInfo c.url ::
                          (tr1 ++ [ACall.submitCall info.audio_url]))
                  | some t1 =>
                      let r := afterWait env s2 eid etitle t1 (env.taskDone t1)
                      (r.1, r.2.1,
                        ACall.getEpisodeInfo c.url ::
                          (tr1 ++ [ACall.submitCall info.audio_url,
                                   ACall.waitCall t1 720] ++ r.2.2))

/-- One iteration of the discovery loop of `check_and_process_new`
(lines 720-750): a `none` entry is a record whose link failed to parse;
otherwise resolve the reference (this *is* an asset-resolver call, made
before the completed check), skip on missing `episode_id`, skip if the
episode is already completed, else process. -/
def checkStep (env : Env) (s : SState) (oc : Option Cand) :
    SState × Nat × List ACall :=
  match oc with
  | none => (s, 0, [])
  | some c =>
      match env.resolve c.url with
      | none => (s, 0, [ACall.getEpisodeInfo c.url])
      | some info =>
          if info.episode_id = "" then (s, 0, [ACall.getEpisodeInfo c.url])
          else if is_completedE s info.episode_id then
            (s, 0, [ACall.getEpisodeInfo c.url])
          else
            let r := process_episode env s c
            (r.1, if r.2.1 then 1 else 0, ACall.getEpisodeInfo c.url :: r.2.2)

/-- The discovery loop body over all records. -/
def checkLoop (env : Env) : List (Option Cand) → SState → SState × Nat × List ACall
  | [], s => (s, 0, [])
  | oc :: rest, s =>
      let r := checkStep env s oc
      let r2 := checkLoop env rest r.1
      (r2.1, r.2.1 + r2.2.1, r.2.2 ++ r2.2.2)

/-- `PodcastService.check_and_process_new` (lines 704-756): iterate over the
records, then `update_last_check_time`. -/
def check_and_process_new (env : Env) (s : SState) (records : List (Option Cand)) :
    SState × Nat × List ACall :=
  let r := checkLoop env records s
  ({ r.1 with lastCheck := true }, r.2.1, r.2.2)

/-! ### Basic lemmas about the service state -/

theorem getEp_putEp_self (s : SState) (eid : String) (e : Ep) :
    getEp (putEp s eid e) eid = some e := by
  simp [getEp, putEp, assocGet_assocSet_self]

theorem getEp_putEp_ne (s : SState) (eid k : String) (e : Ep) (h : k ≠ eid) :
    getEp (putEp s eid e) k = getEp s k := by
  simp [getEp, putEp, assocGet_assocSet_ne _ _ _ _ h]

theorem files_putEp (s : SState) (eid : String) (e : Ep) :
    (putEp s eid e).files = s.files := rfl

theorem getEp_addFile (s : SState) (p k : String) :
    getEp (addFile s p) k = getEp s k := rfl

theorem assocSet_same {α β : Type} [DecidableEq α]
    (d : List (α × β)) (k : α) (v : β) (h : assocGet d k = some v) :
    assocSet d k v = d := by
  induction d with
  | nil => simp [assocGet] at h
  | cons hd rest ih =>
      obtain ⟨k', v'⟩ := hd
      by_cases hk : k' = k
      · subst hk
        simp only [assocGet, if_pos rfl] at h
        injection h with h'
        simp [assocSet, h']
      · simp only [assocGet] at h
        rw [if_neg hk] at h
        simp [assocSet, hk, ih h]

theorem putEp_same (s : SState) (eid : String) (e : Ep)
    (h : getEp s eid = some e) : putEp s eid e = s := by
  simp only [putEp, assocSet_same s.episodes eid e h]

/-- Classification of a transcription-adapter call. -/
def isTransCall : ACall → Bool
  | ACall.submitCall _ => true
  | ACall.waitCall _ _ => true
  | _ => false

/-- Classification of a submit call. -/
def isSubmitCall : ACall → Bool
  | ACall.submitCall _ => true
  | _ => false

theorem generate_notes_trace_free (env : Env) (s : SState) (eid title : String) :
    (generate_notes env s eid title).2.2.filter isTransCall = [] := by
  unfold generate_notes
  cases get_transcription_path s eid with
  | none => simp
  | some p =>
      by_cases h1 : p = ""
      · simp [h1]
      · by_cases h2 : hasFile s p = false
        · simp [h1, h2]
        · by_cases h3 : env.loadOk p = false
          · simp [h1, h2, h3, isTransCall]
          · by_cases h4 : env.renderOk title = true
            · simp [h1, h2, h3, h4, isTransCall]
            · simp [h1, h2, h3, h4, isTransCall]

theorem afterWait_trace_free (env : Env) (s : SState) (eid title tid : String)
    (ok : Bool) :
    (afterWait env s eid title tid ok).2.2.filter isTransCall = [] := by
  unfold afterWait
  cases ok with
  | false => simp
  | true =>
      rw [if_neg (by decide : ¬ ((true : Bool) = false))]
      dsimp only
      exact generate_notes_trace_free env _ eid title

/-! ### State-field shapes: no write ever sets the state `"pending"` -/

/-- The state value stored at a key, if any. -/
def stateAt (s : SState) (k : String) : Option String := (getEp s k).map Ep.state

/-- The state strings the orchestrator can write (plus `""`, the state of a
record created empty and merged without a state field). -/
def stateOK (v : Option String) : Prop :=
  v = some TRANSCRIBING ∨ v = some TRANSCRIBED ∨ v = some COMPLETED ∨
    v = some TRANSCRIPTION_FAILED ∨ v = some ""

/-- `s'` refines `s` writing only legal states. -/
def StOK (s s' : SState) : Prop :=
  ∀ k, stateAt s' k = stateAt s k ∨ stateOK (stateAt s' k)

theorem StOK_refl (s : SState) : StOK s s := fun _ => Or.inl rfl

theorem StOK_trans {s t u : SState} (h1 : StOK s t) (h2 : StOK t u) : StOK s u := by
  intro k
  rcases h2 k with h | h
  · rcases h1 k with h' | h'
    · exact Or.inl (h.trans h')
    · exact Or.inr (h ▸ h')
  · exact Or.inr h

/-- A `putEp` that keeps the current state value. -/
theorem StOK_putEp_keep (s : SState) (eid : String) (e : Ep)
    (he : e.state = (getOrEmpty s eid).state) : StOK s (putEp s eid e) := by
  intro k
  by_cases hk : k = eid
  · subst hk
    rw [stateAt, getEp_putEp_self]
    cases hg : getEp s k with
    | some e0 =>
        left
        simp [stateAt, hg, he, getOrEmpty]
    | none =>
        have hstate : e.state = "" := by
          rw [he]
          simp only [getOrEmpty, hg]
          rfl
        right
        right; right; right; right
        simp [hstate]
  · rw [stateAt, getEp_putEp_ne _ _ _ _ hk]
    exact Or.inl rfl

/-- A `putEp` that writes one of the legal states. -/
theorem StOK_putEp_legal (s : SState) (eid : String) (e : Ep)
    (he : stateOK (some e.state)) : StOK s (putEp s eid e) := by
  intro k
  by_cases hk : k = eid
  · subst hk
    rw [stateAt, getEp_putEp_self]
    exact Or.inr he
  · rw [stateAt, getEp_putEp_ne _ _ _ _ hk]
    exact Or.inl rfl

theorem StOK_mark_transcribing (s : SState) (eid rid url title audio : String) :
    StOK s (mark_transcribing s eid rid url title audio) :=
  StOK_putEp_legal _ _ _ (Or.inl rfl)

theorem StOK_mark_transcribed (s : SState) (eid tid : String) :
    StOK s (mark_transcribed s eid tid) :=
  StOK_putEp_legal _ _ _ (Or.inr (Or.inl rfl))

theorem StOK_mark_completed (s : SState) (eid np : String) :
    StOK s (mark_completed s eid np) :=
  StOK_putEp_legal _ _ _ (Or.inr (Or.inr (Or.inl rfl)))

theorem StOK_fail_tf (s : SState) (eid err : String) :
    StOK s (fail_tf s eid err) :=
  StOK_putEp_legal _ _ _ (Or.inr (Or.inr (Or.inr (Or.inl rfl))))

theorem StOK_fail_wait (s : SState) (eid tid err : String) :
    StOK s (fail_wait s eid tid err) :=
  StOK_putEp_legal _ _ _ (Or.inr (Or.inr (Or.inr (Or.inl rfl))))

theorem StOK_mark_failed (s : SState) (eid err : String) :
    StOK s (mark_failed s eid err) :=
  StOK_putEp_keep _ _ _ rfl

theorem StOK_set_task_id (s : SState) (eid tid : String) :
    StOK s (set_task_id s eid tid) :=
  StOK_putEp_keep _ _ _ rfl

theorem StOK_set_transcription_path (s : SState) (eid p : String) :
    StOK s (set_transcription_path s eid p) :=
  StOK_putEp_keep _ _ _ rfl

theorem StOK_addFile (s : SState) (p : String) : StOK s (addFile s p) :=
  fun _ => Or.inl rfl

theorem StOK_generate_notes (env : Env) (s : SState) (eid title : String) :
    StOK s (generate_notes env s eid title).1 := by
  unfold generate_notes
  cases get_transcription_path s eid with
  | none => exact StOK_refl s
  | some p =>
      dsimp only
      by_cases h1 : p = ""
      · simp only [h1, if_pos rfl]
        exact StOK_refl s
      · rw [if_neg h1]
        by_cases h2 : hasFile s p = false
        · rw [if_pos h2]
          exact StOK_refl s
        · rw [if_neg h2]
          by_cases h3 : env.loadOk p = false
          · rw [if_pos h3]
            exact StOK_mark_failed s eid loadErrMsg
          · rw [if_neg h3]
            by_cases h4 : env.renderOk title = true
            · rw [if_pos h4]
              exact StOK_mark_completed s eid (notePathOf title)
            · rw [if_neg h4]
              exact StOK_mark_failed s eid renderErrMsg

theorem StOK_afterWait (env : Env) (s : SState) (eid title tid : String)
    (ok : Bool) : StOK s (afterWait env s eid title tid ok).1 := by
  unfold afterWait
  cases ok with
  | false => exact StOK_fail_wait s eid tid waitErrMsg
  | true =>
      rw [if_neg (by decide : ¬ ((true : Bool) = false))]
      dsimp only
      refine StOK_trans ?_ (StOK_generate_notes env _ eid title)
      refine StOK_trans ?_ (StOK_set_transcription_path _ eid (transcriptPath eid))
      refine StOK_trans ?_ (StOK_mark_transcribed _ eid tid)
      by_cases hw : env.writeOk (transcriptPath eid) = true
      · rw [if_pos hw]
        exact StOK_addFile s (transcriptPath eid)
      · rw [if_neg hw]
        exact StOK_refl s

theorem StOK_process_episode (env : Env) (s : SState) (c : Cand) :
    StOK s (process_episode env s c).1 := by
  unfold process_episode
  cases env.resolve c.url with
  | none => exact StOK_refl s
  | some info =>
      dsimp only
      by_cases ha : info.audio_url = ""
      · rw [if_pos ha]
        exact StOK_refl s
      · rw [if_neg ha]
        by_cases hi : info.episode_id = ""
        · rw [if_pos hi]
          exact StOK_refl s
        · rw [if_neg hi]
          by_cases hc : is_completedE s info.episode_id = true
          · rw [if_pos hc]
            exact StOK_refl s
          · rw [if_neg hc]
            by_cases ht : is_transcribedE s info.episode_id = true
            · rw [if_pos ht]
              exact StOK_generate_notes env s info.episode_id _
            · rw [if_neg ht]
              -- transcription path: every branch is a composition of the ops
              cases hsn : getEp s info.episode_id with
              | none =>
                  dsimp only
                  cases hsub : env.submit info.audio_url with
                  | none =>
                      exact StOK_trans
                        (StOK_mark_transcribing s _ c.record_id c.url c.title info.audio_url)
                        (StOK_mark_failed _ _ submitErrMsg)
                  | some t1 =>
                      exact StOK_trans
                        (StOK_mark_transcribing s _ c.record_id c.url c.title info.audio_url)
                        (StOK_afterWait env _ _ _ t1 (env.taskDone t1))
              | some e =>
                  dsimp only [Option.bind]
                  by_cases htf : e.state = TRANSCRIPTION_FAILED
                  · rw [if_pos htf]
                    cases htid : optTruthy e.task_id with
                    | none =>
                        try dsimp only
                        cases hsub : env.submit info.audio_url with
                        | none =>
                            exact StOK_trans
                              (StOK_mark_transcribing s _ c.record_id c.url c.title info.audio_url)
                              (StOK_mark_failed _ _ submitErrMsg)
                        | some t1 =>
                            exact StOK_trans
                              (StOK_mark_transcribing s _ c.record_id c.url c.title info.audio_url)
                              (StOK_afterWait env _ _ _ t1 (env.taskDone t1))
                    | some t =>
                        try dsimp only
                        by_cases hdone : env.taskDone t = true
                        · simp only [if_pos hdone]
                          try dsimp only
                          exact StOK_trans
                            (StOK_mark_transcribing s _ c.record_id c.url c.title info.audio_url)
                            (StOK_afterWait env _ _ _ t true)
                        · simp only [if_neg hdone]
                          cases hsub : env.submit info.audio_url with
                          | none =>
                              try dsimp only
                              exact StOK_fail_tf s _ submitErrMsg
                          | some t2 =>
                              try dsimp only
                              exact StOK_trans (StOK_set_task_id s _ t2)
                                (StOK_trans
                                  (StOK_mark_transcribing _ _ c.record_id c.url c.title info.audio_url)
                                  (StOK_afterWait env _ _ _ t2 (env.taskDone t2)))
                  · rw [if_neg htf]
                    cases htid : optTruthy e.task_id with
                    | none =>
                        try dsimp only
                        cases hsub : env.submit info.audio_url with
                        | none =>
                            exact StOK_trans
                              (StOK_mark_transcribing s _ c.record_id c.url c.title info.audio_url)
                              (StOK_mark_failed _ _ submitErrMsg)
                        | some t1 =>
                            exact StOK_trans
                              (StOK_mark_transcribing s _ c.record_id c.url c.title info.audio_url)
                              (StOK_afterWait env _ _ _ t1 (env.taskDone t1))
                    | some t =>
                        try dsimp only
                        by_cases hdone : env.taskDone t = true
                        · simp only [if_pos hdone]
                          exact StOK_trans
                            (StOK_mark_transcribing s _ c.record_id c.url c.title info.audio_url)
                            (StOK_afterWait env _ _ _ t true)
                        · simp only [if_neg hdone]
                          cases hsub : env.submit info.audio_url with
                          | none =>
                              exact StOK_trans
                                (StOK_mark_transcribing s _ c.record_id c.url c.title info.audio_url)
                                (StOK_mark_failed _ _ submitErrMsg)
                          | some t2 =>
                              exact StOK_trans
                                (StOK_mark_transcribing s _ c.record_id c.url c.title info.audio_url)
                                (StOK_afterWait env _ _ _ t2 (env.taskDone t2))

theorem filter_submit_of_trans (l : List ACall) (h : l.filter isTransCall = []) :
    l.filter isSubmitCall = [] := by
  induction l with
  | nil => rfl
  | cons a rest ih =>
      cases ha : isTransCall a with
      | true => simp [List.filter_cons, ha] at h
      | false =>
          have hsub : isSubmitCall a = false := by
            cases a <;> simp_all [isTransCall, isSubmitCall]
          simp only [List.filter_cons, ha] at h
          simp only [List.filter_cons, hsub]
          simp only [if_neg (by simp : ¬ (false = true))] at h ⊢
          exact ih h

/-! ### Claim theorems about the orchestrator -/

/-- **C1.**  For an episode whose stored state is `transcribed` or
`completed`, `process_episode` makes *no* transcription-adapter call at all
(neither `submit_transcription` nor `wait_for_result`): it either skips
(completed) or branches directly to note generation, which only reads the
persisted transcript. -/
theorem C1_no_transcription_call (env : Env) (s : SState) (c : Cand)
    (info : EpInfo)
    (hres : env.resolve c.url = some info)
    (htr : is_transcribedE s info.episode_id = true) :
    (process_episode env s c).2.2.filter isTransCall = [] := by
  unfold process_episode
  rw [hres]
  dsimp only
  by_cases ha : info.audio_url = ""
  · rw [if_pos ha]
    rfl
  · rw [if_neg ha]
    by_cases hi : info.episode_id = ""
    · rw [if_pos hi]
      rfl
    · rw [if_neg hi]
      by_cases hcp : is_completedE s info.episode_id = true
      · rw [if_pos hcp]
        rfl
      · rw [if_neg hcp, if_pos htr]
        have hg := generate_notes_trace_free env s info.episode_id (info.title.getD c.title)
        simp only [List.filter_cons]
        rw [if_neg (by simp [isTransCall])]
        exact hg

/-- **C1 witness**: a transcribed episode with a resolvable reference. -/
theorem C1_witness :
    (process_episode
      { resolve := fun u =>
          if u = "u" then some { episode_id := "e", audio_url := "a", title := none }
          else none,
        submit := fun _ => none, taskDone := fun _ => false,
        writeOk := fun _ => true, loadOk := fun _ => true,
        renderOk := fun _ => true }
      { episodes := [("e", { state := TRANSCRIBED })] }
      { record_id := "r", url := "u", title := "T" }).2.2.filter isTransCall = [] :=
  C1_no_transcription_call _ _ _
    { episode_id := "e", audio_url := "a", title := none } (by decide) (by decide)

/-- **C2 counterexample.**  The claim says a discovery pass skips a completed
episode *without invoking the asset-resolver call (`get_episode_info`)*.
In `check_and_process_new` the resolver is called at line 733, *before* the
completed check at line 744: the trace of a pass over a single completed
episode contains exactly that resolver call (its record is indeed left
unchanged). -/
theorem C2_counterexample :
    is_completedE { episodes := [("e", { state := COMPLETED })] } "e" = true ∧
    (check_and_process_new
        { resolve := fun u =>
            if u = "u" then some { episode_id := "e", audio_url := "a", title := none }
            else none,
          submit := fun _ => none, taskDone := fun _ => false,
          writeOk := fun _ => true, loadOk := fun _ => true,
          renderOk := fun _ => true }
        { episodes := [("e", { state := COMPLETED })] }
        [some { record_id := "r", url := "u", title := "T" }]).2.2
      = [ACall.getEpisodeInfo "u"] ∧
    (check_and_process_new
        { resolve := fun u =>
            if u = "u" then some { episode_id := "e", audio_url := "a", title := none }
            else none,
          submit := fun _ => none, taskDone := fun _ => false,
          writeOk := fun _ => true, loadOk := fun _ => true,
          renderOk := fun _ => true }
        { episodes := [("e", { state := COMPLETED })] }
        [some { record_id := "r", url := "u", title := "T" }]).1.episodes
      = [("e", { state := COMPLETED })] := by
  refine ⟨by decide, by decide, by decide⟩

/-- **C2 (amended).**  A discovery pass resolves every candidate's reference
through `get_episode_info` *before* the completed check; for an episode
already `completed` it then skips with no further adapter call, no change to
the service state, and a zero contribution to the processed count. -/
theorem C2_amended (env : Env) (s : SState) (c : Cand) (info : EpInfo)
    (hres : env.resolve c.url = some info)
    (hi : info.episode_id ≠ "")
    (hcomp : is_completedE s info.episode_id = true) :
    checkStep env s (some c) = (s, 0, [ACall.getEpisodeInfo c.url]) := by
  unfold checkStep
  dsimp only
  rw [hres]
  dsimp only
  rw [if_neg hi, if_pos hcomp]

/-- **C2 amended, witness.** -/
theorem C2_amended_witness :
    checkStep
      { resolve := fun u =>
          if u = "u" then some { episode_id := "e", audio_url := "a", title := none }
          else none,
        submit := fun _ => none, taskDone := fun _ => false,
        writeOk := fun _ => true, loadOk := fun _ => true,
        renderOk := fun _ => true }
      { episodes := [("e", { state := COMPLETED })] }
      (some { record_id := "r", url := "u", title := "T" })
      = ({ episodes := [("e", { state := COMPLETED })] }, 0,
          [ACall.getEpisodeInfo "u"]) :=
  C2_amended _ _ _ { episode_id := "e", audio_url := "a", title := none }
    (by decide) (by decide) (by decide)

/-- **C4.**  When `process_episode` re-enters transcription for an episode
that already holds a (truthy) `task_id` — whatever its non-terminal state,
including `transcription_failed` — the *first* transcription-adapter call of
the run is a short-timeout fetch `wait_for_result(task_id, timeout=60)`, and
a fresh `submit_transcription` occurs only if that existing task's result is
not available. -/
theorem C4_fetch_before_resubmit (env : Env) (s : SState) (c : Cand)
    (info : EpInfo) (e : Ep) (t : String)
    (hres : env.resolve c.url = some info)
    (ha : info.audio_url ≠ "")
    (hi : info.episode_id ≠ "")
    (he : getEp s info.episode_id = some e)
    (ht : optTruthy e.task_id = some t)
    (hnt : e.state ≠ TRANSCRIBED)
    (hnc : e.state ≠ COMPLETED) :
    ((process_episode env s c).2.2.filter isTransCall).head?
        = some (ACall.waitCall t 60) ∧
    ((process_episode env s c).2.2.filter isSubmitCall ≠ [] →
        env.taskDone t = false) := by
  have hcp : ¬ is_completedE s info.episode_id = true := by
    simp [is_completedE, he, hnc]
  have htr : ¬ is_transcribedE s info.episode_id = true := by
    simp [is_transcribedE, he, hnt, hnc]
  unfold process_episode
  rw [hres]
  dsimp only
  rw [if_neg ha, if_neg hi, if_neg hcp, if_neg htr, he]
  dsimp only [Option.bind]
  rw [ht]
  by_cases htf : e.state = TRANSCRIPTION_FAILED
  · rw [if_pos htf]
    try dsimp only
    by_cases hdone : env.taskDone t = true
    · simp only [if_pos hdone]
      try dsimp only
      have hw := afterWait_trace_free env
        (mark_transcribing s info.episode_id c.record_id c.url c.title info.audio_url)
        info.episode_id (info.title.getD c.title) t true
      constructor
      · simp [List.filter_cons, List.filter_append, isTransCall, hw]
      · intro hne
        exfalso
        apply hne
        have hw2 := filter_submit_of_trans _ hw
        simp [List.filter_cons, List.filter_append, isSubmitCall, hw2]
    · simp only [if_neg hdone]
      cases hsub : env.submit info.audio_url with
      | none =>
          dsimp only
          constructor
          · simp [List.filter_cons, isTransCall]
          · intro _
            exact Bool.eq_false_iff.mpr hdone
      | some t2 =>
          dsimp only
          have hw := afterWait_trace_free env
            (mark_transcribing (set_task_id s info.episode_id t2) info.episode_id
              c.record_id c.url c.title info.audio_url)
            info.episode_id (info.title.getD c.title) t2 (env.taskDone t2)
          constructor
          · simp [List.filter_cons, List.filter_append, isTransCall, hw]
          · intro _
            exact Bool.eq_false_iff.mpr hdone
  · rw [if_neg htf]
    dsimp only
    by_cases hdone : env.taskDone t = true
    · simp only [if_pos hdone]
      have hw := afterWait_trace_free env
        (mark_transcribing s info.episode_id c.record_id c.url c.title info.audio_url)
        info.episode_id (info.title.getD c.title) t true
      constructor
      · simp [List.filter_cons, List.filter_append, isTransCall, hw]
      · intro hne
        exfalso
        apply hne
        have hw2 := filter_submit_of_trans _ hw
        simp [List.filter_cons, List.filter_append, isSubmitCall, hw2]
    · simp only [if_neg hdone]
      cases hsub : env.submit info.audio_url with
      | none =>
          constructor
          · simp [List.filter_cons, List.filter_append, isTransCall]
          · intro _
            exact Bool.eq_false_iff.mpr hdone
      | some t2 =>
          have hw := afterWait_trace_free env
            (mark_transcribing s info.episode_id c.record_id c.url c.title info.audio_url)
            info.episode_id (info.title.getD c.title) t2 (env.taskDone t2)
          constructor
          · simp [List.filter_cons, List.filter_append, isTransCall, hw]
          · intro _
            exact Bool.eq_false_iff.mpr hdone

/-- **C4 witness**: a `transcription_failed` episode holding task `"t1"`
whose result is not ready and whose resubmission also fails. -/
theorem C4_witness :
    ((process_episode
        { resolve := fun u =>
            if u = "u" then some { episode_id := "e", audio_url := "a", title := none }
            else none,
          submit := fun _ => none, taskDone := fun _ => false,
          writeOk := fun _ => true, loadOk := fun _ => true,
          renderOk := fun _ => true }
        { episodes := [("e", { state := TRANSCRIPTION_FAILED, task_id := some "t1" })] }
        { record_id := "r", url := "u", title := "T" }).2.2.filter isTransCall).head?
      = some (ACall.waitCall "t1" 60) :=
  (C4_fetch_before_resubmit _ _ _
    { episode_id := "e", audio_url := "a", title := none }
    { state := TRANSCRIPTION_FAILED, task_id := some "t1" } "t1"
    (by decide) (by decide) (by decide) (by decide) (by decide)
    (by decide) (by decide)).1

/-- **C5 counterexample.**  The claim says *any* unrecoverable failure of
note generation sets `error` and `failed_at` via `mark_failed`.  But when the
persisted transcript file is missing, `_generate_notes` (lines 636-638) logs
and returns `False` *without* marking: here a `transcribed` episode with no
`transcription_path` fails note generation and its record is left entirely
unchanged — `error` unset, `failed_at` unset. -/
theorem C5_counterexample :
    ((process_episode
        { resolve := fun u =>
            if u = "u" then some { episode_id := "e", audio_url := "a", title := none }
            else none,
          submit := fun _ => none, taskDone := fun _ => false,
          writeOk := fun _ => true, loadOk := fun _ => true,
          renderOk := fun _ => true }
        { episodes := [("e", { state := TRANSCRIBED })] }
        { record_id := "r", url := "u", title := "T" }).2.1 = false) ∧
    (getEp (process_episode
        { resolve := fun u =>
            if u = "u" then some { episode_id := "e", audio_url := "a", title := none }
            else none,
          submit := fun _ => none, taskDone := fun _ => false,
          writeOk := fun _ => true, loadOk := fun _ => true,
          renderOk := fun _ => true }
        { episodes := [("e", { state := TRANSCRIBED })] }
        { record_id := "r", url := "u", title := "T" }).1 "e"
      = some { state := TRANSCRIBED }) := by
  refine ⟨by decide, by decide⟩

/-- **C5 (amended).**  On an unrecoverable *exception* during note
generation (transcript parse failure or renderer failure, with the
transcript file present), `mark_failed` records `error` and `failed_at`
while the `state` field keeps its last-known value; *every* note-generation
failure (including the unmarked missing-transcript early return) preserves
the episode's state — in particular a `transcribed` episode stays
`transcribed` — and no `process_episode` path ever writes the state
`pending`. -/
theorem C5_amended (env : Env) (s : SState) (eid title : String) (e : Ep)
    (p : String)
    (he : getEp s eid = some e)
    (hp : e.transcription_path = some p)
    (hp0 : p ≠ "")
    (hf : hasFile s p = true)
    (hfail : env.loadOk p = false ∨ env.renderOk title = false) :
    ((generate_notes env s eid title).2.1 = false ∧
      ∃ e', getEp (generate_notes env s eid title).1 eid = some e' ∧
        e'.state = e.state ∧ e'.error.isSome = true ∧ e'.failed_at = true) ∧
    (∀ env2 s2 eid2 t2, (generate_notes env2 s2 eid2 t2).2.1 = false →
      stateAt (generate_notes env2 s2 eid2 t2).1 eid2 = stateAt s2 eid2) ∧
    (∀ env2 s2 c2 k, stateAt (process_episode env2 s2 c2).1 k = some PENDING →
      stateAt s2 k = some PENDING) := by
  refine ⟨?_, ?_, ?_⟩
  · have hgp : get_transcription_path s eid = some p := by
      simp [get_transcription_path, he, hp]
    have hge : getOrEmpty s eid = e := by simp [getOrEmpty, he]
    unfold generate_notes
    rw [hgp]
    dsimp only
    rw [if_neg hp0, if_neg (by simp [hf])]
    rcases hfail with hload | hrender
    · rw [if_pos hload]
      refine ⟨rfl, _, getEp_putEp_self _ _ _, ?_, ?_, ?_⟩ <;> simp [hge]
    · by_cases hload : env.loadOk p = false
      · rw [if_pos hload]
        refine ⟨rfl, _, getEp_putEp_self _ _ _, ?_, ?_, ?_⟩ <;> simp [hge]
      · rw [if_neg hload, if_neg (by simp [hrender])]
        refine ⟨rfl, _, getEp_putEp_self _ _ _, ?_, ?_, ?_⟩ <;> simp [hge]
  · intro env2 s2 eid2 t2 hfalse
    unfold generate_notes at hfalse ⊢
    cases hgp : get_transcription_path s2 eid2 with
    | none => rfl
    | some p2 =>
        have hge2 : ∃ e2, getEp s2 eid2 = some e2 := by
          cases hge : getEp s2 eid2 with
          | none => simp [get_transcription_path, hge] at hgp
          | some e2 => exact ⟨e2, rfl⟩
        obtain ⟨e2, hge2⟩ := hge2
        rw [hgp] at hfalse
        dsimp only at hfalse ⊢
        by_cases h1 : p2 = ""
        · rw [if_pos h1]
        · rw [if_neg h1] at hfalse ⊢
          by_cases h2 : hasFile s2 p2 = false
          · rw [if_pos h2]
          · rw [if_neg h2] at hfalse ⊢
            by_cases h3 : env2.loadOk p2 = false
            · rw [if_pos h3]
              simp [stateAt, mark_failed, getEp_putEp_self, getOrEmpty, hge2]
            · rw [if_neg h3] at hfalse ⊢
              by_cases h4 : env2.renderOk t2 = true
              · rw [if_pos h4] at hfalse
                simp at hfalse
              · rw [if_neg h4]
                simp [stateAt, mark_failed, getEp_putEp_self, getOrEmpty, hge2]
  · intro env2 s2 c2 k hpend
    rcases StOK_process_episode env2 s2 c2 k with h | h
    · rw [← h, hpend]
    · rcases h with h | h | h | h | h <;> rw [hpend] at h <;>
        exact absurd h (by decide)

/-- **C5 amended, witness**: a transcribed episode whose transcript file
exists but whose render raises. -/
theorem C5_amended_witness :
    ((generate_notes
        { resolve := fun _ => none,
          submit := fun _ => none, taskDone := fun _ => false,
          writeOk := fun _ => true, loadOk := fun _ => true,
          renderOk := fun _ => false }
        { episodes := [("e", { state := TRANSCRIBED,
                               transcription_path := some "workspace/e.json" })],
          files := ["workspace/e.json"] }
        "e" "T").2.1 = false) ∧
    (∃ e', getEp (generate_notes
        { resolve := fun _ => none,
          submit := fun _ => none, taskDone := fun _ => false,
          writeOk := fun _ => true, loadOk := fun _ => true,
          renderOk := fun _ => false }
        { episodes := [("e", { state := TRANSCRIBED,
                               transcription_path := some "workspace/e.json" })],
          files := ["workspace/e.json"] }
        "e" "T").1 "e" = some e' ∧
      e'.state = TRANSCRIBED ∧ e'.error.isSome = true ∧ e'.failed_at = true) := by
  have h := (C5_amended
    { resolve := fun _ => none,
      submit := fun _ => none, taskDone := fun _ => false,
      writeOk := fun _ => true, loadOk := fun _ => true,
      renderOk := fun _ => false }
    { episodes := [("e", { state := TRANSCRIBED,
                           transcription_path := some "workspace/e.json" })],
      files := ["workspace/e.json"] }
    "e" "T"
    { state := TRANSCRIBED, transcription_path := some "workspace/e.json" }
    "workspace/e.json"
    (by decide) (by decide) (by decide) (by decide) (Or.inr (by decide))).1
  obtain ⟨hb, e', he', hst, herr, hfa⟩ := h
  exact ⟨hb, e', he', hst, herr, hfa⟩

/-- **C7.**  Calling note generation again for an episode that is already
`completed` — transcript persisted and loadable, renderer succeeding, note
path already recorded for this title — is a no-op on the service state: it
re-renders the same document at the same title-determined path, returns
`true`, and makes no transcription-adapter call. -/
theorem C7_generate_notes_idempotent (env : Env) (s : SState)
    (eid title : String) (e : Ep) (p : String)
    (he : getEp s eid = some e)
    (hst : e.state = COMPLETED)
    (hp : e.transcription_path = some p)
    (hp0 : p ≠ "")
    (hf : hasFile s p = true)
    (hload : env.loadOk p = true)
    (hrender : env.renderOk title = true)
    (hnote : e.note_path = some (notePathOf title))
    (hcat : e.completed_at = true) :
    generate_notes env s eid title
      = (s, true, [ACall.llmCall, ACall.renderCall title]) := by
  have hgp : get_transcription_path s eid = some p := by
    simp [get_transcription_path, he, hp]
  have hge : getOrEmpty s eid = e := by simp [getOrEmpty, he]
  unfold generate_notes
  rw [hgp]
  dsimp only
  rw [if_neg hp0, if_neg (by simp [hf]), if_neg (by simp [hload]),
    if_pos hrender]
  have hrec : ({ getOrEmpty s eid with
      state := COMPLETED, note_path := some (notePathOf title),
      completed_at := true } : Ep) = e := by
    rw [hge]
    obtain ⟨st, rid, url, ti, au, tid, tp, np, er, te, fa, ca⟩ := e
    simp_all
  rw [mark_completed, hrec, putEp_same s eid e he]

set_option maxRecDepth 4000 in
/-- **C7 witness**: a completed episode re-run through note generation. -/
theorem C7_witness :
    generate_notes
      { resolve := fun _ => none,
        submit := fun _ => none, taskDone := fun _ => false,
        writeOk := fun _ => true, loadOk := fun _ => true,
        renderOk := fun _ => true }
      { episodes := [("e", { state := COMPLETED,
                             transcription_path := some "workspace/e.json",
                             note_path := some (notePathOf "T"),
                             completed_at := true })],
        files := ["workspace/e.json"] }
      "e" "T"
      = ({ episodes := [("e", { state := COMPLETED,
                                transcription_path := some "workspace/e.json",
                                note_path := some (notePathOf "T"),
                                completed_at := true })],
           files := ["workspace/e.json"] }, true,
         [ACall.llmCall, ACall.renderCall "T"]) :=
  C7_generate_notes_idempotent _ _ "e" "T"
    { state := COMPLETED, transcription_path := some "workspace/e.json",
      note_path := some (notePathOf "T"), completed_at := true }
    "workspace/e.json"
    (by decide) (by decide) (by decide) (by decide) (by decide) (by decide)
    (by decide) rfl (by decide)

/-- The adapter oracle of the C8 counterexample: two references `uA`/`uB`
resolve to the *same* episode `E` with different resolved titles; only `uB`'s
media submits successfully and its task completes at once; rendering
succeeds for title `TA` but raises for title `TB`. -/
def envC8 : Env :=
  { resolve := fun u =>
      if u = "uA" then some { episode_id := "E", audio_url := "aA", title := some "TA" }
      else if u = "uB" then some { episode_id := "E", audio_url := "aB", title := some "TB" }
      else none,
    submit := fun a => if a = "aB" then some "t1" else none,
    taskDone := fun t => t = "t1",
    writeOk := fun _ => true,
    loadOk := fun _ => true,
    renderOk := fun t => t = "TA" }

/-- The records of the C8 counterexample. -/
def recordsC8 : List (Option Cand) :=
  [some { record_id := "rA", url := "uA", title := "x" },
   some { record_id := "rB", url := "uB", title := "y" }]

/-- **C8 counterexample.**  The claim says a second discovery pass with the
same candidates and unchanged adapters processes zero additional episodes.
With two candidates resolving to the same episode: in pass one, `rA` fails at
submit, then `rB` transcribes the episode but its render (title `TB`)
raises, so pass one returns 0 and leaves the episode `transcribed`; in pass
two, `rA` now goes straight to note generation with *its* resolved title
`TA`, which renders fine — the episode completes and the second call returns
1, not 0. -/
theorem C8_counterexample :
    (check_and_process_new envC8 {} recordsC8).2.1 = 0 ∧
    (check_and_process_new envC8
        (check_and_process_new envC8 {} recordsC8).1 recordsC8).2.1 = 1 := by
  refine ⟨by decide, by decide⟩

/-! ### Machinery for the idempotent-discovery theorem (C8)

A failed `process_episode` run leaves its episode in a *wedged* slice: a
record shape from which, with the same deterministic adapters, the next run
fails again.  Runs touch only their own episode's record and their own
transcript file, so with pairwise-distinct resolved episode ids the wedges
survive the rest of the pass, and a second pass processes nothing. -/

/-- The resolved episode id of a candidate, when `process_episode` would get
past its input checks. -/
def resolvedEid (env : Env) (c : Cand) : Option String :=
  match env.resolve c.url with
  | none => none
  | some info =>
      if info.audio_url = "" then none
      else if info.episode_id = "" then none
      else some info.episode_id

/-- The resolved episode id of a discovery-loop record. -/
def candEid (env : Env) : Option Cand → Option String
  | none => none
  | some c => resolvedEid env c

/-- Well-formedness maintained by the service: a stored `transcription_path`
is always the episode's own workspace path. -/
def wfS (s : SState) : Prop :=
  ∀ eid e, getEp s eid = some e →
    e.transcription_path = none ∨ e.transcription_path = some (transcriptPath eid)

theorem transcriptPath_inj {a b : String} (h : transcriptPath a = transcriptPath b) :
    a = b := by
  unfold transcriptPath at h
  have h1 := congrArg String.data h
  simp only [String.data_append] at h1
  rw [List.append_assoc, List.append_assoc] at h1
  have h2 := List.append_cancel_left h1
  have h3 := List.append_cancel_right h2
  exact String.ext h3

/-- Note generation is stuck for `eid`/`title` in state `s`: the stored path
is missing or falsy, the file is absent, the transcript does not parse, or
the render raises.  All components are determined by the episode's slice and
the static adapters. -/
def GenStuck (env : Env) (s : SState) (eid title : String) : Prop :=
  get_transcription_path s eid = none ∨
  get_transcription_path s eid = some "" ∨
  ∃ p, get_transcription_path s eid = some p ∧ p ≠ "" ∧
    (hasFile s p = false ∨ env.loadOk p = false ∨ env.renderOk title = false)

/-- A wedged slice for candidate `c`: a record shape from which
`process_episode` fails (and keeps failing, the adapters being
deterministic). -/
def Wedged (env : Env) (c : Cand) (s : SState) : Prop :=
  ∃ info, env.resolve c.url = some info ∧ info.episode_id ≠ "" ∧
    info.audio_url ≠ "" ∧
    ∃ e, getEp s info.episode_id = some e ∧
      ((e.state = TRANSCRIBED ∧
          GenStuck env s info.episode_id (info.title.getD c.title)) ∨
       (e.state = TRANSCRIPTION_FAILED ∧ ∃ t, optTruthy e.task_id = some t ∧
          env.taskDone t = false ∧ env.submit info.audio_url = none) ∨
       (e.state = TRANSCRIPTION_FAILED ∧ ∃ tid, e.task_id = some tid ∧
          env.submit info.audio_url = some tid ∧ env.taskDone tid = false) ∨
       (e.state = TRANSCRIBING ∧ env.submit info.audio_url = none ∧
          (optTruthy e.task_id = none ∨
            ∃ t, optTruthy e.task_id = some t ∧ env.taskDone t = false)))

theorem generate_notes_files (env : Env) (s : SState) (eid title : String) :
    (generate_notes env s eid title).1.files = s.files := by
  unfold generate_notes
  cases get_transcription_path s eid with
  | none => rfl
  | some p =>
      dsimp only
      by_cases h1 : p = ""
      · rw [if_pos h1]
      · rw [if_neg h1]
        by_cases h2 : hasFile s p = false
        · rw [if_pos h2]
        · rw [if_neg h2]
          by_cases h3 : env.loadOk p = false
          · rw [if_pos h3]
            rfl
          · rw [if_neg h3]
            by_cases h4 : env.renderOk title = true
            · rw [if_pos h4]
              rfl
            · rw [if_neg h4]
              rfl

theorem gen_stuck_false (env : Env) (s : SState) (eid title : String)
    (h : GenStuck env s eid title) :
    (generate_notes env s eid title).2.1 = false := by
  unfold generate_notes
  rcases h with h | h | ⟨p, hp, hp0, hcond⟩
  · rw [h]
  · rw [h]
    dsimp only
    rw [if_pos rfl]
  · rw [hp]
    dsimp only
    rw [if_neg hp0]
    by_cases h2 : hasFile s p = false
    · rw [if_pos h2]
    · rw [if_neg h2]
      by_cases h3 : env.loadOk p = false
      · rw [if_pos h3]
      · rw [if_neg h3]
        by_cases h4 : env.renderOk title = true
        · exfalso
          rcases hcond with hc | hc | hc
          · exact h2 hc
          · exact h3 hc
          · rw [h4] at hc
            exact Bool.noConfusion hc
        · rw [if_neg h4]

theorem gen_false_wedge (env : Env) (s : SState) (eid title : String) (e : Ep)
    (he : getEp s eid = some e)
    (hfalse : (generate_notes env s eid title).2.1 = false) :
    ∃ e', getEp (generate_notes env s eid title).1 eid = some e' ∧
      e'.state = e.state ∧
      GenStuck env (generate_notes env s eid title).1 eid title := by
  have hge : getOrEmpty s eid = e := by simp [getOrEmpty, he]
  have hep : ∀ p, get_transcription_path s eid = some p →
      e.transcription_path = some p := by
    intro p hp
    simpa [get_transcription_path, he] using hp
  unfold generate_notes at hfalse ⊢
  cases hgp : get_transcription_path s eid with
  | none =>
      exact ⟨e, he, rfl, Or.inl hgp⟩
  | some p =>
      rw [hgp] at hfalse
      dsimp only at hfalse ⊢
      by_cases h1 : p = ""
      · rw [if_pos h1]
        subst h1
        exact ⟨e, he, rfl, Or.inr (Or.inl hgp)⟩
      · rw [if_neg h1] at hfalse ⊢
        by_cases h2 : hasFile s p = false
        · rw [if_pos h2]
          exact ⟨e, he, rfl, Or.inr (Or.inr ⟨p, hgp, h1, Or.inl h2⟩)⟩
        · rw [if_neg h2] at hfalse ⊢
          by_cases h3 : env.loadOk p = false
          · rw [if_pos h3]
            refine ⟨{ e with error := some loadErrMsg, failed_at := true },
              ?_, rfl, ?_⟩
            · simp [mark_failed, getEp_putEp_self, hge]
            · refine Or.inr (Or.inr ⟨p, ?_, h1, Or.inr (Or.inl h3)⟩)
              simp [get_transcription_path, mark_failed, getEp_putEp_self, hge,
                hep p hgp]
          · rw [if_neg h3] at hfalse ⊢
            by_cases h4 : env.renderOk title = true
            · rw [if_pos h4] at hfalse
              simp at hfalse
            · rw [if_neg h4]
              refine ⟨{ e with error := some renderErrMsg, failed_at := true },
                ?_, rfl, ?_⟩
              · simp [mark_failed, getEp_putEp_self, hge]
              · refine Or.inr (Or.inr ⟨p, ?_, h1, Or.inr (Or.inr ?_)⟩)
                · simp [get_transcription_path, mark_failed, getEp_putEp_self, hge,
                    hep p hgp]
                · simp [h4]

theorem getEp_set_path_mark (s : SState) (eid tid p : String) :
    getEp (set_transcription_path (mark_transcribed s eid tid) eid p) eid =
      some { getOrEmpty s eid with
        state := TRANSCRIBED, task_id := some tid,
        transcription_path := some p } := by
  simp [set_transcription_path, mark_transcribed, getOrEmpty, getEp_putEp_self]

theorem afterWait_files (env : Env) (s : SState) (eid title tid : String)
    (ok : Bool) :
    (afterWait env s eid title tid ok).1.files = s.files ∨
    (afterWait env s eid title tid ok).1.files = transcriptPath eid :: s.files := by
  cases ok with
  | false => exact Or.inl rfl
  | true =>
      unfold afterWait
      rw [if_neg (by decide : ¬(true = false))]
      dsimp only
      rw [generate_notes_files]
      by_cases hw : env.writeOk (transcriptPath eid) = true
      · rw [if_pos hw]
        exact Or.inr rfl
      · rw [if_neg hw]
        exact Or.inl rfl

theorem afterWait_false_wedge (env : Env) (s : SState) (eid title tid : String)
    (ok : Bool) (hfalse : (afterWait env s eid title tid ok).2.1 = false) :
    ∃ e', getEp (afterWait env s eid title tid ok).1 eid = some e' ∧
      ((ok = false ∧ e'.state = TRANSCRIPTION_FAILED ∧ e'.task_id = some tid) ∨
       (ok = true ∧ e'.state = TRANSCRIBED ∧
         GenStuck env (afterWait env s eid title tid ok).1 eid title)) := by
  cases ok with
  | false =>
      refine ⟨{ getOrEmpty s eid with
        state := TRANSCRIPTION_FAILED, task_id := some tid,
        transcription_error := some waitErrMsg,
        failed_at := true }, ?_, Or.inl ⟨rfl, rfl, rfl⟩⟩
      show getEp (fail_wait s eid tid waitErrMsg) eid = some _
      exact getEp_putEp_self _ _ _
  | true =>
      unfold afterWait at hfalse ⊢
      rw [if_neg (by decide : ¬(true = false))] at hfalse ⊢
      dsimp only at hfalse ⊢
      obtain ⟨e', hgetE, hstate, hstuck⟩ := gen_false_wedge env _ eid title _
        (getEp_set_path_mark _ eid tid _) hfalse
      exact ⟨e', hgetE, Or.inr ⟨rfl, by rw [hstate], hstuck⟩⟩

theorem generate_notes_frame (env : Env) (s : SState) (eid title k : String)
    (hk : k ≠ eid) :
    getEp (generate_notes env s eid title).1 k = getEp s k := by
  unfold generate_notes
  cases get_transcription_path s eid with
  | none => rfl
  | some p =>
      dsimp only
      by_cases h1 : p = ""
      · rw [if_pos h1]
      · rw [if_neg h1]
        by_cases h2 : hasFile s p = false
        · rw [if_pos h2]
        · rw [if_neg h2]
          by_cases h3 : env.loadOk p = false
          · rw [if_pos h3]
            exact getEp_putEp_ne _ _ _ _ hk
          · rw [if_neg h3]
            by_cases h4 : env.renderOk title = true
            · rw [if_pos h4]
              exact getEp_putEp_ne _ _ _ _ hk
            · rw [if_neg h4]
              exact getEp_putEp_ne _ _ _ _ hk

theorem afterWait_frame (env : Env) (s : SState) (eid title tid k : String)
    (ok : Bool) (hk : k ≠ eid) :
    getEp (afterWait env s eid title tid ok).1 k = getEp s k := by
  cases ok with
  | false =>
      show getEp (fail_wait s eid tid waitErrMsg) k = getEp s k
      exact getEp_putEp_ne _ _ _ _ hk
  | true =>
      unfold afterWait
      rw [if_neg (by decide : ¬ ((true : Bool) = false))]
      dsimp only
      rw [generate_notes_frame env _ eid title k hk]
      simp only [set_transcription_path, mark_transcribed]
      rw [getEp_putEp_ne _ _ _ _ hk, getEp_putEp_ne _ _ _ _ hk]
      by_cases hw : env.writeOk (transcriptPath eid) = true
      · rw [if_pos hw]
        rfl
      · rw [if_neg hw]

theorem process_episode_frame (env : Env) (s : SState) (c : Cand) (k : String)
    (hk : resolvedEid env c ≠ some k) :
    getEp (process_episode env s c).1 k = getEp s k := by
  unfold process_episode
  unfold resolvedEid at hk
  cases hres : env.resolve c.url with
  | none => rfl
  | some info =>
      rw [hres] at hk
      dsimp only at hk ⊢
      by_cases ha : info.audio_url = ""
      · rw [if_pos ha]
      · rw [if_neg ha] at hk ⊢
        by_cases hi : info.episode_id = ""
        · rw [if_pos hi]
        · rw [if_neg hi] at hk ⊢
          have hke : k ≠ info.episode_id := fun h => hk (by rw [h])
          by_cases hc : is_completedE s info.episode_id = true
          · rw [if_pos hc]
          · rw [if_neg hc]
            by_cases ht : is_transcribedE s info.episode_id = true
            · rw [if_pos ht]
              exact generate_notes_frame env s info.episode_id _ k hke
            · rw [if_neg ht]
              cases hsn : getEp s info.episode_id with
              | none =>
                  dsimp only
                  cases hsub : env.submit info.audio_url with
                  | none =>
                      exact (getEp_putEp_ne _ _ _ _ hke).trans
                        (getEp_putEp_ne _ _ _ _ hke)
                  | some t1 =>
                      exact (afterWait_frame env _ _ _ t1 k (env.taskDone t1)
                          hke).trans
                        (getEp_putEp_ne _ _ _ _ hke)
              | some e =>
                  dsimp only [Option.bind]
                  by_cases htf : e.state = TRANSCRIPTION_FAILED
                  · rw [if_pos htf]
                    cases htid : optTruthy e.task_id with
                    | none =>
                        try dsimp only
                        cases hsub : env.submit info.audio_url with
                        | none =>
                            exact (getEp_putEp_ne _ _ _ _ hke).trans
                              (getEp_putEp_ne _ _ _ _ hke)
                        | some t1 =>
                            exact (afterWait_frame env _ _ _ t1 k
                                (env.taskDone t1) hke).trans
                              (getEp_putEp_ne _ _ _ _ hke)
                    | some t =>
                        try dsimp only
                        by_cases hdone : env.taskDone t = true
                        · simp only [if_pos hdone]
                          try dsimp only
                          exact (afterWait_frame env _ _ _ t k true hke).trans
                            (getEp_putEp_ne _ _ _ _ hke)
                        · simp only [if_neg hdone]
                          cases hsub : env.submit info.audio_url with
                          | none =>
                              try dsimp only
                              exact getEp_putEp_ne _ _ _ _ hke
                          | some t2 =>
                              try dsimp only
                              exact ((afterWait_frame env _ _ _ t2 k
                                  (env.taskDone t2) hke).trans
                                (getEp_putEp_ne _ _ _ _ hke)).trans
                                (getEp_putEp_ne _ _ _ _ hke)
                  · rw [if_neg htf]
                    cases htid : optTruthy e.task_id with
                    | none =>
                        try dsimp only
                        cases hsub : env.submit info.audio_url with
                        | none =>
                            exact (getEp_putEp_ne _ _ _ _ hke).trans
                              (getEp_putEp_ne _ _ _ _ hke)
                        | some t1 =>
                            exact (afterWait_frame env _ _ _ t1 k
                                (env.taskDone t1) hke).trans
                              (getEp_putEp_ne _ _ _ _ hke)
                    | some t =>
                        try dsimp only
                        by_cases hdone : env.taskDone t = true
                        · simp only [if_pos hdone]
                          exact (afterWait_frame env _ _ _ t k true hke).trans
                            (getEp_putEp_ne _ _ _ _ hke)
                        · simp only [if_neg hdone]
                          cases hsub : env.submit info.audio_url with
                          | none =>
                              exact (getEp_putEp_ne _ _ _ _ hke).trans
                                (getEp_putEp_ne _ _ _ _ hke)
                          | some t2 =>
                              exact (afterWait_frame env _ _ _ t2 k
                                  (env.taskDone t2) hke).trans
                                (getEp_putEp_ne _ _ _ _ hke)

theorem process_episode_noop (env : Env) (s : SState) (c : Cand)
    (hres : resolvedEid env c = none) :
    (process_episode env s c).1 = s := by
  unfold process_episode
  unfold resolvedEid at hres
  cases hr : env.resolve c.url with
  | none => rfl
  | some info =>
      rw [hr] at hres
      dsimp only at hres ⊢
      by_cases ha : info.audio_url = ""
      · rw [if_pos ha]
      · rw [if_neg ha] at hres ⊢
        by_cases hi : info.episode_id = ""
        · rw [if_pos hi]
        · rw [if_neg hi] at hres
          exact absurd hres (by simp)

theorem afterWait_hasFile (env : Env) (s : SState) (eid title tid q : String)
    (ok : Bool) (hq : q ≠ transcriptPath eid) :
    hasFile (afterWait env s eid title tid ok).1 q = hasFile s q := by
  rcases afterWait_files env s eid title tid ok with h | h
  · rw [hasFile, h]
    rfl
  · rw [hasFile, h, hasFile]
    simp [List.contains_cons, hq]

theorem process_episode_hasFile (env : Env) (s : SState) (c : Cand)
    (eid q : String) (hres : resolvedEid env c = some eid)
    (hq : q ≠ transcriptPath eid) :
    hasFile (process_episode env s c).1 q = hasFile s q := by
  unfold process_episode
  unfold resolvedEid at hres
  cases hr : env.resolve c.url with
  | none => rfl
  | some info =>
      rw [hr] at hres
      dsimp only at hres ⊢
      by_cases ha : info.audio_url = ""
      · rw [if_pos ha]
      · rw [if_neg ha] at hres ⊢
        by_cases hi : info.episode_id = ""
        · rw [if_pos hi]
        · rw [if_neg hi] at hres ⊢
          have heid : info.episode_id = eid := by
            simpa using hres
          subst heid
          by_cases hc : is_completedE s info.episode_id = true
          · rw [if_pos hc]
          · rw [if_neg hc]
            by_cases ht : is_transcribedE s info.episode_id = true
            · rw [if_pos ht]
              show hasFile (generate_notes env s info.episode_id
                (info.title.getD c.title)).1 q = hasFile s q
              rw [hasFile, generate_notes_files, hasFile]
            · rw [if_neg ht]
              cases hsn : getEp s info.episode_id with
              | none =>
                  dsimp only
                  cases hsub : env.submit info.audio_url with
                  | none => rfl
                  | some t1 =>
                      exact (afterWait_hasFile env _ _ _ t1 q
                        (env.taskDone t1) hq).trans rfl
              | some e =>
                  dsimp only [Option.bind]
                  by_cases htf : e.state = TRANSCRIPTION_FAILED
                  · rw [if_pos htf]
                    cases htid : optTruthy e.task_id with
                    | none =>
                        try dsimp only
                        cases hsub : env.submit info.audio_url with
                        | none => rfl
                        | some t1 =>
                            exact (afterWait_hasFile env _ _ _ t1 q
                              (env.taskDone t1) hq).trans rfl
                    | some t =>
                        try dsimp only
                        by_cases hdone : env.taskDone t = true
                        · simp only [if_pos hdone]
                          try dsimp only
                          exact (afterWait_hasFile env _ _ _ t q true hq).trans
                            rfl
                        · simp only [if_neg hdone]
                          cases hsub : env.submit info.audio_url with
                          | none =>
                              try dsimp only
                              rfl
                          | some t2 =>
                              try dsimp only
                              exact (afterWait_hasFile env _ _ _ t2 q
                                (env.taskDone t2) hq).trans rfl
                  · rw [if_neg htf]
                    cases htid : optTruthy e.task_id with
                    | none =>
                        try dsimp only
                        cases hsub : env.submit info.audio_url with
                        | none => rfl
                        | some t1 =>
                            exact (afterWait_hasFile env _ _ _ t1 q
                              (env.taskDone t1) hq).trans rfl
                    | some t =>
                        try dsimp only
                        by_cases hdone : env.taskDone t = true
                        · simp only [if_pos hdone]
                          exact (afterWait_hasFile env _ _ _ t q true hq).trans
                            rfl
                        · simp only [if_neg hdone]
                          cases hsub : env.submit info.audio_url with
                          | none => rfl
                          | some t2 =>
                              exact (afterWait_hasFile env _ _ _ t2 q
                                (env.taskDone t2) hq).trans rfl

theorem wf_putEp_keep (s : SState) (eid : String) (e : Ep) (hwf : wfS s)
    (he : e.transcription_path = (getOrEmpty s eid).transcription_path ∨
      e.transcription_path = some (transcriptPath eid)) :
    wfS (putEp s eid e) := by
  intro k e' hk
  by_cases hke : k = eid
  · subst hke
    rw [getEp_putEp_self] at hk
    have hee : e = e' := Option.some.inj hk
    subst hee
    rcases he with he | he
    · cases hg : getEp s k with
      | some e0 =>
          have h0 := hwf k e0 hg
          rw [he]
          simpa [getOrEmpty, hg] using h0
      | none =>
          left
          rw [he]
          simp [getOrEmpty, hg]
    · right
      rw [he]
  · rw [getEp_putEp_ne _ _ _ _ hke] at hk
    exact hwf k e' hk

theorem wf_addFile (s : SState) (p : String) (hwf : wfS s) :
    wfS (addFile s p) := hwf

theorem wf_generate_notes (env : Env) (s : SState) (eid title : String)
    (hwf : wfS s) : wfS (generate_notes env s eid title).1 := by
  unfold generate_notes
  cases get_transcription_path s eid with
  | none => exact hwf
  | some p =>
      dsimp only
      by_cases h1 : p = ""
      · rw [if_pos h1]
        exact hwf
      · rw [if_neg h1]
        by_cases h2 : hasFile s p = false
        · rw [if_pos h2]
          exact hwf
        · rw [if_neg h2]
          by_cases h3 : env.loadOk p = false
          · rw [if_pos h3]
            exact wf_putEp_keep s eid _ hwf (Or.inl rfl)
          · rw [if_neg h3]
            by_cases h4 : env.renderOk title = true
            · rw [if_pos h4]
              exact wf_putEp_keep s eid _ hwf (Or.inl rfl)
            · rw [if_neg h4]
              exact wf_putEp_keep s eid _ hwf (Or.inl rfl)

theorem wf_afterWait (env : Env) (s : SState) (eid title tid : String)
    (ok : Bool) (hwf : wfS s) : wfS (afterWait env s eid title tid ok).1 := by
  unfold afterWait
  cases ok with
  | false => exact wf_putEp_keep s eid _ hwf (Or.inl rfl)
  | true =>
      rw [if_neg (by decide : ¬ ((true : Bool) = false))]
      dsimp only
      refine wf_generate_notes env _ eid title ?_
      refine wf_putEp_keep _ eid _ ?_ (Or.inr rfl)
      refine wf_putEp_keep _ eid _ ?_ (Or.inl rfl)
      by_cases hw : env.writeOk (transcriptPath eid) = true
      · rw [if_pos hw]
        exact wf_addFile s _ hwf
      · rw [if_neg hw]
        exact hwf

theorem wf_process_episode (env : Env) (s : SState) (c : Cand)
    (hwf : wfS s) : wfS (process_episode env s c).1 := by
  unfold process_episode
  cases env.resolve c.url with
  | none => exact hwf
  | some info =>
      dsimp only
      by_cases ha : info.audio_url = ""
      · rw [if_pos ha]
        exact hwf
      · rw [if_neg ha]
        by_cases hi : info.episode_id = ""
        · rw [if_pos hi]
          exact hwf
        · rw [if_neg hi]
          by_cases hc : is_completedE s info.episode_id = true
          · rw [if_pos hc]
            exact hwf
          · rw [if_neg hc]
            by_cases ht : is_transcribedE s info.episode_id = true
            · rw [if_pos ht]
              exact wf_generate_notes env s info.episode_id _ hwf
            · rw [if_neg ht]
              cases hsn : getEp s info.episode_id with
              | none =>
                  dsimp only
                  cases hsub : env.submit info.audio_url with
                  | none =>
                      exact wf_putEp_keep _ _ _
                        (wf_putEp_keep s _ _ hwf (Or.inl rfl)) (Or.inl rfl)
                  | some t1 =>
                      exact wf_afterWait env _ _ _ t1 (env.taskDone t1)
                        (wf_putEp_keep s _ _ hwf (Or.inl rfl))
              | some e =>
                  dsimp only [Option.bind]
                  by_cases htf : e.state = TRANSCRIPTION_FAILED
                  · rw [if_pos htf]
                    cases htid : optTruthy e.task_id with
                    | none =>
                        try dsimp only
                        cases hsub : env.submit info.audio_url with
                        | none =>
                            exact wf_putEp_keep _ _ _
                              (wf_putEp_keep s _ _ hwf (Or.inl rfl)) (Or.inl rfl)
                        | some t1 =>
                            exact wf_afterWait env _ _ _ t1 (env.taskDone t1)
                              (wf_putEp_keep s _ _ hwf (Or.inl rfl))
                    | some t =>
                        try dsimp only
                        by_cases hdone : env.taskDone t = true
                        · simp only [if_pos hdone]
                          try dsimp only
                          exact wf_afterWait env _ _ _ t true
                            (wf_putEp_keep s _ _ hwf (Or.inl rfl))
                        · simp only [if_neg hdone]
                          cases hsub : env.submit info.audio_url with
                          | none =>
                              try dsimp only
                              exact wf_putEp_keep s _ _ hwf (Or.inl rfl)
                          | some t2 =>
                              try dsimp only
                              exact wf_afterWait env _ _ _ t2 (env.taskDone t2)
                                (wf_putEp_keep _ _ _
                                  (wf_putEp_keep s _ _ hwf (Or.inl rfl))
                                  (Or.inl rfl))
                  · rw [if_neg htf]
                    cases htid : optTruthy e.task_id with
                    | none =>
                        try dsimp only
                        cases hsub : env.submit info.audio_url with
                        | none =>
                            exact wf_putEp_keep _ _ _
                              (wf_putEp_keep s _ _ hwf (Or.inl rfl)) (Or.inl rfl)
                        | some t1 =>
                            exact wf_afterWait env _ _ _ t1 (env.taskDone t1)
                              (wf_putEp_keep s _ _ hwf (Or.inl rfl))
                    | some t =>
                        try dsimp only
                        by_cases hdone : env.taskDone t = true
                        · simp only [if_pos hdone]
                          exact wf_afterWait env _ _ _ t true
                            (wf_putEp_keep s _ _ hwf (Or.inl rfl))
                        · simp only [if_neg hdone]
                          cases hsub : env.submit info.audio_url with
                          | none =>
                              exact wf_putEp_keep _ _ _
                                (wf_putEp_keep s _ _ hwf (Or.inl rfl))
                                (Or.inl rfl)
                          | some t2 =>
                              exact wf_afterWait env _ _ _ t2 (env.taskDone t2)
                                (wf_putEp_keep s _ _ hwf (Or.inl rfl))

theorem wf_checkStep (env : Env) (s : SState) (oc : Option Cand)
    (hwf : wfS s) : wfS (checkStep env s oc).1 := by
  unfold checkStep
  cases oc with
  | none => exact hwf
  | some c =>
      dsimp only
      cases env.resolve c.url with
      | none => exact hwf
      | some info =>
          dsimp only
          by_cases hi : info.episode_id = ""
          · rw [if_pos hi]
            exact hwf
          · rw [if_neg hi]
            by_cases hc : is_completedE s info.episode_id = true
            · rw [if_pos hc]
              exact hwf
            · rw [if_neg hc]
              exact wf_process_episode env s c hwf

theorem wf_checkLoop (env : Env) (rs : List (Option Cand)) (s : SState)
    (hwf : wfS s) : wfS (checkLoop env rs s).1 := by
  induction rs generalizing s with
  | nil => exact hwf
  | cons oc rest ih =>
      exact ih (checkStep env s oc).1 (wf_checkStep env s oc hwf)

theorem gen_true_completed (env : Env) (s : SState) (eid title : String)
    (h : (generate_notes env s eid title).2.1 = true) :
    is_completedE (generate_notes env s eid title).1 eid = true := by
  unfold generate_notes at h ⊢
  cases hgp : get_transcription_path s eid with
  | none =>
      rw [hgp] at h
      exact Bool.noConfusion h
  | some p =>
      try rw [hgp] at h
      dsimp only at h ⊢
      by_cases h1 : p = ""
      · rw [if_pos h1] at h
        exact Bool.noConfusion h
      · rw [if_neg h1] at h ⊢
        by_cases h2 : hasFile s p = false
        · rw [if_pos h2] at h
          exact Bool.noConfusion h
        · rw [if_neg h2] at h ⊢
          by_cases h3 : env.loadOk p = false
          · rw [if_pos h3] at h
            exact Bool.noConfusion h
          · rw [if_neg h3] at h ⊢
            by_cases h4 : env.renderOk title = true
            · rw [if_pos h4]
              simp [is_completedE, mark_completed, getEp_putEp_self, COMPLETED]
            · rw [if_neg h4] at h
              exact Bool.noConfusion h

theorem afterWait_true_completed (env : Env) (s : SState)
    (eid title tid : String) (ok : Bool)
    (h : (afterWait env s eid title tid ok).2.1 = true) :
    is_completedE (afterWait env s eid title tid ok).1 eid = true := by
  cases ok with
  | false =>
      have hf : (afterWait env s eid title tid false).2.1 = false := rfl
      rw [hf] at h
      exact Bool.noConfusion h
  | true =>
      unfold afterWait at h ⊢
      rw [if_neg (by decide : ¬ ((true : Bool) = false))] at h ⊢
      dsimp only at h ⊢
      exact gen_true_completed env _ eid title h

theorem process_true_completed (env : Env) (s : SState) (c : Cand)
    (eid : String) (hres : resolvedEid env c = some eid)
    (h : (process_episode env s c).2.1 = true) :
    is_completedE (process_episode env s c).1 eid = true := by
  unfold process_episode at h ⊢
  unfold resolvedEid at hres
  cases hr : env.resolve c.url with
  | none =>
      rw [hr] at h
      exact Bool.noConfusion h
  | some info =>
      rw [hr] at h hres
      dsimp only at h hres ⊢
      by_cases ha : info.audio_url = ""
      · rw [if_pos ha] at h
        exact Bool.noConfusion h
      · rw [if_neg ha] at h hres ⊢
        by_cases hi : info.episode_id = ""
        · rw [if_pos hi] at h
          exact Bool.noConfusion h
        · rw [if_neg hi] at h hres ⊢
          have heid : info.episode_id = eid := by simpa using hres
          subst heid
          by_cases hc : is_completedE s info.episode_id = true
          · rw [if_pos hc]
            exact hc
          · rw [if_neg hc] at h ⊢
            by_cases ht : is_transcribedE s info.episode_id = true
            · rw [if_pos ht] at h ⊢
              exact gen_true_completed env s info.episode_id _ h
            · rw [if_neg ht] at h ⊢
              cases hsn : getEp s info.episode_id with
              | none =>
                  try rw [hsn] at h
                  dsimp only at h ⊢
                  cases hsub : env.submit info.audio_url with
                  | none =>
                      try rw [hsub] at h
                      try dsimp only at h
                      exact Bool.noConfusion h
                  | some t1 =>
                      try rw [hsub] at h
                      try dsimp only at h
                      exact afterWait_true_completed env _ _ _ t1
                        (env.taskDone t1) h
              | some e =>
                  try rw [hsn] at h
                  dsimp only [Option.bind] at h ⊢
                  by_cases htf : e.state = TRANSCRIPTION_FAILED
                  · rw [if_pos htf] at h ⊢
                    cases htid : optTruthy e.task_id with
                    | none =>
                        try rw [htid] at h
                        try dsimp only at h
                        try dsimp only
                        cases hsub : env.submit info.audio_url with
                        | none =>
                            try rw [hsub] at h
                            try dsimp only at h
                            exact Bool.noConfusion h
                        | some t1 =>
                            try rw [hsub] at h
                            try dsimp only at h
                            exact afterWait_true_completed env _ _ _ t1
                              (env.taskDone t1) h
                    | some t =>
                        try rw [htid] at h
                        try dsimp only at h
                        try dsimp only
                        by_cases hdone : env.taskDone t = true
                        · simp only [if_pos hdone] at h ⊢
                          try dsimp only at h
                          try dsimp only
                          exact afterWait_true_completed env _ _ _ t true h
                        · simp only [if_neg hdone] at h ⊢
                          cases hsub : env.submit info.audio_url with
                          | none =>
                              try rw [hsub] at h
                              try dsimp only at h
                              exact Bool.noConfusion h
                          | some t2 =>
                              try rw [hsub] at h
                              try dsimp only at h
                              try dsimp only
                              exact afterWait_true_completed env _ _ _ t2
                                (env.taskDone t2) h
                  · rw [if_neg htf] at h ⊢
                    cases htid : optTruthy e.task_id with
                    | none =>
                        try rw [htid] at h
                        try dsimp only at h
                        try dsimp only
                        cases hsub : env.submit info.audio_url with
                        | none =>
                            try rw [hsub] at h
                            try dsimp only at h
                            exact Bool.noConfusion h
                        | some t1 =>
                            try rw [hsub] at h
                            try dsimp only at h
                            exact afterWait_true_completed env _ _ _ t1
                              (env.taskDone t1) h
                    | some t =>
                        try rw [htid] at h
                        try dsimp only at h
                        try dsimp only
                        by_cases hdone : env.taskDone t = true
                        · simp only [if_pos hdone] at h ⊢
                          exact afterWait_true_completed env _ _ _ t true h
                        · simp only [if_neg hdone] at h ⊢
                          cases hsub : env.submit info.audio_url with
                          | none =>
                              try rw [hsub] at h
                              try dsimp only at h
                              exact Bool.noConfusion h
                          | some t2 =>
                              try rw [hsub] at h
                              try dsimp only at h
                              exact afterWait_true_completed env _ _ _ t2
                                (env.taskDone t2) h

theorem getEp_mark_failed (s : SState) (eid err : String) :
    getEp (mark_failed s eid err) eid =
      some { getOrEmpty s eid with error := some err, failed_at := true } := by
  simp [mark_failed, getEp_putEp_self]

theorem getOrEmpty_mark_transcribing (s : SState)
    (eid rid url title audio : String) :
    getOrEmpty (mark_transcribing s eid rid url title audio) eid =
      { getOrEmpty s eid with
        state := TRANSCRIBING, record_id := rid, url := url,
        title := title, audio_url := audio } := by
  simp [getOrEmpty, mark_transcribing, getEp_putEp_self]

theorem process_false_wedged (env : Env) (s : SState) (c : Cand) (eid : String)
    (hres : resolvedEid env c = some eid)
    (hfalse : (process_episode env s c).2.1 = false) :
    Wedged env c (process_episode env s c).1 := by
  unfold process_episode at hfalse ⊢
  unfold resolvedEid at hres
  cases hr : env.resolve c.url with
  | none =>
      rw [hr] at hres
      exact Option.noConfusion hres
  | some info =>
      try rw [hr] at hres
      try rw [hr] at hfalse
      dsimp only at hres hfalse ⊢
      by_cases ha : info.audio_url = ""
      · rw [if_pos ha] at hres
        exact Option.noConfusion hres
      · rw [if_neg ha] at hres hfalse ⊢
        by_cases hi : info.episode_id = ""
        · rw [if_pos hi] at hres
          exact Option.noConfusion hres
        · rw [if_neg hi] at hres hfalse ⊢
          by_cases hc : is_completedE s info.episode_id = true
          · rw [if_pos hc] at hfalse
            exact Bool.noConfusion hfalse
          · rw [if_neg hc] at hfalse ⊢
            by_cases ht : is_transcribedE s info.episode_id = true
            · rw [if_pos ht] at hfalse ⊢
              have hex : ∃ e0, getEp s info.episode_id = some e0 ∧
                  e0.state = TRANSCRIBED := by
                unfold is_transcribedE at ht
                unfold is_completedE at hc
                cases hg : getEp s info.episode_id with
                | none =>
                    try rw [hg] at ht
                    simp at ht
                | some e0 =>
                    try rw [hg] at ht
                    try rw [hg] at hc
                    simp at ht hc
                    rcases ht with h | h
                    · exact ⟨e0, rfl, h⟩
                    · exact absurd h hc
              obtain ⟨e0, he0, hst0⟩ := hex
              obtain ⟨e', hget, hste, hstuck⟩ :=
                gen_false_wedge env s info.episode_id _ e0 he0 hfalse
              exact ⟨info, hr, hi, ha, e', hget,
                Or.inl ⟨hste.trans hst0, hstuck⟩⟩
            · rw [if_neg ht] at hfalse ⊢
              cases hsn : getEp s info.episode_id with
              | none =>
                  try rw [hsn] at hfalse
                  dsimp only at hfalse ⊢
                  have hge : getOrEmpty s info.episode_id = {} := by
                    simp [getOrEmpty, hsn]
                  cases hsub : env.submit info.audio_url with
                  | none =>
                      try rw [hsub] at hfalse
                      refine ⟨info, hr, hi, ha, _, getEp_mark_failed _ _ _,
                        Or.inr (Or.inr (Or.inr ?_))⟩
                      rw [getOrEmpty_mark_transcribing, hge]
                      exact ⟨rfl, hsub, Or.inl rfl⟩
                  | some t1 =>
                      try rw [hsub] at hfalse
                      try dsimp only at hfalse
                      obtain ⟨e', hget, hcase⟩ := afterWait_false_wedge env _ _ _
                        t1 (env.taskDone t1) hfalse
                      rcases hcase with ⟨hok, hst, htid'⟩ | ⟨_, hst, hstuck⟩
                      · exact ⟨info, hr, hi, ha, e', hget, Or.inr (Or.inr
                          (Or.inl ⟨hst, t1, htid', hsub, hok⟩))⟩
                      · exact ⟨info, hr, hi, ha, e', hget,
                          Or.inl ⟨hst, hstuck⟩⟩
              | some e =>
                  try rw [hsn] at hfalse
                  dsimp only [Option.bind] at hfalse ⊢
                  have hge : getOrEmpty s info.episode_id = e := by
                    simp [getOrEmpty, hsn]
                  by_cases htf : e.state = TRANSCRIPTION_FAILED
                  · rw [if_pos htf] at hfalse ⊢
                    cases htid : optTruthy e.task_id with
                    | none =>
                        try rw [htid] at hfalse
                        try dsimp only at hfalse
                        try dsimp only
                        cases hsub : env.submit info.audio_url with
                        | none =>
                            try rw [hsub] at hfalse
                            refine ⟨info, hr, hi, ha, _,
                              getEp_mark_failed _ _ _,
                              Or.inr (Or.inr (Or.inr ?_))⟩
                            rw [getOrEmpty_mark_transcribing, hge]
                            exact ⟨rfl, hsub, Or.inl htid⟩
                        | some t1 =>
                            try rw [hsub] at hfalse
                            try dsimp only at hfalse
                            obtain ⟨e', hget, hcase⟩ := afterWait_false_wedge
                              env _ _ _ t1 (env.taskDone t1) hfalse
                            rcases hcase with ⟨hok, hst, htid'⟩ |
                              ⟨_, hst, hstuck⟩
                            · exact ⟨info, hr, hi, ha, e', hget, Or.inr (Or.inr
                                (Or.inl ⟨hst, t1, htid', hsub, hok⟩))⟩
                            · exact ⟨info, hr, hi, ha, e', hget,
                                Or.inl ⟨hst, hstuck⟩⟩
                    | some t =>
                        try rw [htid] at hfalse
                        try dsimp only at hfalse
                        try dsimp only
                        by_cases hdone : env.taskDone t = true
                        · simp only [if_pos hdone] at hfalse ⊢
                          try dsimp only at hfalse
                          try dsimp only
                          obtain ⟨e', hget, hcase⟩ := afterWait_false_wedge
                            env _ _ _ t true hfalse
                          rcases hcase with ⟨hok, _, _⟩ | ⟨_, hst, hstuck⟩
                          · exact Bool.noConfusion hok
                          · exact ⟨info, hr, hi, ha, e', hget,
                              Or.inl ⟨hst, hstuck⟩⟩
                        · have hdf : env.taskDone t = false := by
                            simpa using hdone
                          simp only [if_neg hdone] at hfalse ⊢
                          cases hsub : env.submit info.audio_url with
                          | none =>
                              try rw [hsub] at hfalse
                              try dsimp only
                              refine ⟨info, hr, hi, ha, { e with
                                state := TRANSCRIPTION_FAILED,
                                error := some submitErrMsg,
                                failed_at := true },
                                ?_, Or.inr (Or.inl ⟨rfl, t, htid, hdf,
                                  hsub⟩)⟩
                              show getEp (fail_tf s info.episode_id
                                submitErrMsg) info.episode_id = some _
                              simp [fail_tf, hge, getEp_putEp_self]
                          | some t2 =>
                              try rw [hsub] at hfalse
                              try dsimp only at hfalse
                              try dsimp only
                              obtain ⟨e', hget, hcase⟩ :=
                                afterWait_false_wedge env _ _ _ t2
                                  (env.taskDone t2) hfalse
                              rcases hcase with ⟨hok, hst, htid'⟩ |
                                ⟨_, hst, hstuck⟩
                              · exact ⟨info, hr, hi, ha, e', hget,
                                  Or.inr (Or.inr (Or.inl
                                    ⟨hst, t2, htid', hsub, hok⟩))⟩
                              · exact ⟨info, hr, hi, ha, e', hget,
                                  Or.inl ⟨hst, hstuck⟩⟩
                  · rw [if_neg htf] at hfalse ⊢
                    cases htid : optTruthy e.task_id with
                    | none =>
                        try rw [htid] at hfalse
                        try dsimp only at hfalse
                        try dsimp only
                        cases hsub : env.submit info.audio_url with
                        | none =>
                            try rw [hsub] at hfalse
                            refine ⟨info, hr, hi, ha, _,
                              getEp_mark_failed _ _ _,
                              Or.inr (Or.inr (Or.inr ?_))⟩
                            rw [getOrEmpty_mark_transcribing, hge]
                            exact ⟨rfl, hsub, Or.inl htid⟩
                        | some t1 =>
                            try rw [hsub] at hfalse
                            try dsimp only at hfalse
                            obtain ⟨e', hget, hcase⟩ := afterWait_false_wedge
                              env _ _ _ t1 (env.taskDone t1) hfalse
                            rcases hcase with ⟨hok, hst, htid'⟩ |
                              ⟨_, hst, hstuck⟩
                            · exact ⟨info, hr, hi, ha, e', hget, Or.inr (Or.inr
                                (Or.inl ⟨hst, t1, htid', hsub, hok⟩))⟩
                            · exact ⟨info, hr, hi, ha, e', hget,
                                Or.inl ⟨hst, hstuck⟩⟩
                    | some t =>
                        try rw [htid] at hfalse
                        try dsimp only at hfalse
                        try dsimp only
                        by_cases hdone : env.taskDone t = true
                        · simp only [if_pos hdone] at hfalse ⊢
                          try dsimp only at hfalse
                          try dsimp only
                          obtain ⟨e', hget, hcase⟩ := afterWait_false_wedge
                            env _ _ _ t true hfalse
                          rcases hcase with ⟨hok, _, _⟩ | ⟨_, hst, hstuck⟩
                          · exact Bool.noConfusion hok
                          · exact ⟨info, hr, hi, ha, e', hget,
                              Or.inl ⟨hst, hstuck⟩⟩
                        · have hdf : env.taskDone t = false := by
                            simpa using hdone
                          simp only [if_neg hdone] at hfalse ⊢
                          cases hsub : env.submit info.audio_url with
                          | none =>
                              try rw [hsub] at hfalse
                              try dsimp only
                              refine ⟨info, hr, hi, ha, _,
                                getEp_mark_failed _ _ _,
                                Or.inr (Or.inr (Or.inr ?_))⟩
                              rw [getOrEmpty_mark_transcribing, hge]
                              exact ⟨rfl, hsub, Or.inr ⟨t, htid, hdf⟩⟩
                          | some t2 =>
                              try rw [hsub] at hfalse
                              try dsimp only at hfalse
                              try dsimp only
                              obtain ⟨e', hget, hcase⟩ :=
                                afterWait_false_wedge env _ _ _ t2
                                  (env.taskDone t2) hfalse
                              rcases hcase with ⟨hok, hst, htid'⟩ |
                                ⟨_, hst, hstuck⟩
                              · exact ⟨info, hr, hi, ha, e', hget,
                                  Or.inr (Or.inr (Or.inl
                                    ⟨hst, t2, htid', hsub, hok⟩))⟩
                              · exact ⟨info, hr, hi, ha, e', hget,
                                  Or.inl ⟨hst, hstuck⟩⟩

theorem is_completedE_eq (s : SState) (eid : String) (e : Ep)
    (he : getEp s eid = some e) :
    is_completedE s eid = decide (e.state = COMPLETED) := by
  unfold is_completedE
  rw [he]

theorem is_transcribedE_eq (s : SState) (eid : String) (e : Ep)
    (he : getEp s eid = some e) :
    is_transcribedE s eid =
      (decide (e.state = TRANSCRIBED) || decide (e.state = COMPLETED)) := by
  unfold is_transcribedE
  rw [he]

theorem Wedged_false (env : Env) (s : SState) (c : Cand)
    (hW : Wedged env c s) : (process_episode env s c).2.1 = false := by
  obtain ⟨info, hr, hi, ha, e, he, hcase⟩ := hW
  unfold process_episode
  rw [hr]
  dsimp only
  rw [if_neg ha, if_neg hi]
  rcases hcase with ⟨hst, hstuck⟩ | ⟨hst, t, htid, hdone, hsub⟩ |
    ⟨hst, tid, htid, hsub, hdone⟩ | ⟨hst, hsub, hrest⟩
  · -- W1: transcribed but note generation stuck
    rw [if_neg (by rw [is_completedE_eq s _ e he, hst]; decide)]
    rw [if_pos (by rw [is_transcribedE_eq s _ e he, hst]; decide)]
    exact gen_stuck_false env s info.episode_id _ hstuck
  · -- W2: transcription_failed, stored task not done, resubmit fails
    rw [if_neg (by rw [is_completedE_eq s _ e he, hst]; decide)]
    rw [if_neg (by rw [is_transcribedE_eq s _ e he, hst]; decide)]
    rw [he]
    dsimp only [Option.bind]
    rw [if_pos hst]
    simp only [htid]
    try dsimp only
    simp only [if_neg (by simp [hdone] : ¬ (env.taskDone t = true))]
    simp only [hsub]
  · -- W3: transcription_failed, resubmit returns the same undone task
    rw [if_neg (by rw [is_completedE_eq s _ e he, hst]; decide)]
    rw [if_neg (by rw [is_transcribedE_eq s _ e he, hst]; decide)]
    rw [he]
    dsimp only [Option.bind]
    rw [if_pos hst]
    rw [htid]
    by_cases htid0 : tid = ""
    · subst htid0
      have hot : optTruthy (some "") = none := by
        simp [optTruthy]
      simp only [hot]
      try dsimp only
      simp only [hsub]
      try dsimp only
      simp only [hdone]
      rfl
    · have hot : optTruthy (some tid) = some tid := by
        simp [optTruthy, htid0]
      simp only [hot]
      try dsimp only
      simp only [if_neg (by simp [hdone] : ¬ (env.taskDone tid = true))]
      simp only [hsub]
      try dsimp only
      simp only [hdone]
      rfl
  · -- W4: transcribing, no usable stored task, submit fails
    rw [if_neg (by rw [is_completedE_eq s _ e he, hst]; decide)]
    rw [if_neg (by rw [is_transcribedE_eq s _ e he, hst]; decide)]
    rw [he]
    dsimp only [Option.bind]
    rw [if_neg (by rw [hst]; decide)]
    try dsimp only
    rcases hrest with hnone | ⟨t, htid, hdone⟩
    · simp only [hnone]
      try dsimp only
      simp only [hsub]
    · simp only [htid]
      try dsimp only
      simp only [if_neg (by simp [hdone] : ¬ (env.taskDone t = true))]
      simp only [hsub]

theorem is_completedE_congr (s s' : SState) (k : String)
    (h : getEp s' k = getEp s k) : is_completedE s' k = is_completedE s k := by
  unfold is_completedE
  rw [h]

theorem Wedged_preserved (env : Env) (c : Cand) (s s' : SState) (eid : String)
    (hres : resolvedEid env c = some eid)
    (hwf : wfS s)
    (hW : Wedged env c s)
    (hgs : getEp s' eid = getEp s eid)
    (hfs : hasFile s' (transcriptPath eid) = hasFile s (transcriptPath eid)) :
    Wedged env c s' := by
  obtain ⟨info, hr, hi, ha, e, he, hcase⟩ := hW
  have heid : info.episode_id = eid := by
    unfold resolvedEid at hres
    rw [hr] at hres
    dsimp only at hres
    rw [if_neg ha, if_neg hi] at hres
    exact Option.some.inj hres
  subst heid
  refine ⟨info, hr, hi, ha, e, hgs.trans he, ?_⟩
  rcases hcase with ⟨hst, hstuck⟩ | h2 | h3 | h4
  · refine Or.inl ⟨hst, ?_⟩
    have hgp : get_transcription_path s' info.episode_id =
        get_transcription_path s info.episode_id := by
      unfold get_transcription_path
      rw [hgs]
    rcases hstuck with h | h | ⟨p, hp, hp0, hcond⟩
    · exact Or.inl (hgp.trans h)
    · exact Or.inr (Or.inl (hgp.trans h))
    · refine Or.inr (Or.inr ⟨p, hgp.trans hp, hp0, ?_⟩)
      rcases hcond with hf | hl | hr2
      · left
        have hep : e.transcription_path = some p := by
          unfold get_transcription_path at hp
          rw [he] at hp
          simpa using hp
        have hpe : p = transcriptPath info.episode_id := by
          rcases hwf info.episode_id e he with hn | hsome
          · rw [hn] at hep
            exact Option.noConfusion hep
          · exact (Option.some.inj (hsome.symm.trans hep)).symm
        rw [hpe, hfs, ← hpe]
        exact hf
      · exact Or.inr (Or.inl hl)
      · exact Or.inr (Or.inr hr2)
  · exact Or.inr (Or.inl h2)
  · exact Or.inr (Or.inr (Or.inl h3))
  · exact Or.inr (Or.inr (Or.inr h4))

theorem checkStep_slice (env : Env) (s : SState) (oc : Option Cand)
    (eid : String) (h : candEid env oc ≠ some eid) :
    getEp (checkStep env s oc).1 eid = getEp s eid ∧
    hasFile (checkStep env s oc).1 (transcriptPath eid) =
      hasFile s (transcriptPath eid) := by
  unfold checkStep
  cases oc with
  | none => exact ⟨rfl, rfl⟩
  | some c =>
      dsimp only
      unfold candEid at h
      dsimp only at h
      cases hr : env.resolve c.url with
      | none => exact ⟨rfl, rfl⟩
      | some info =>
          dsimp only
          by_cases hi : info.episode_id = ""
          · rw [if_pos hi]
            exact ⟨rfl, rfl⟩
          · rw [if_neg hi]
            by_cases hc : is_completedE s info.episode_id = true
            · rw [if_pos hc]
              exact ⟨rfl, rfl⟩
            · rw [if_neg hc]
              dsimp only
              cases hre : resolvedEid env c with
              | none =>
                  have hnoop := process_episode_noop env s c hre
                  exact ⟨by rw [hnoop], by rw [hnoop]⟩
              | some eid2 =>
                  have hne : eid2 ≠ eid := fun hh => h (by rw [hre, hh])
                  refine ⟨process_episode_frame env s c eid ?_, ?_⟩
                  · rw [hre]
                    exact fun hh => hne (Option.some.inj hh)
                  · exact process_episode_hasFile env s c eid2 _ hre
                      (fun hh => hne (transcriptPath_inj hh).symm)

theorem checkStep_post (env : Env) (s : SState) (c : Cand) (eid : String)
    (hres : resolvedEid env c = some eid) :
    is_completedE (checkStep env s (some c)).1 eid = true ∨
    Wedged env c (checkStep env s (some c)).1 := by
  have hres0 := hres
  unfold checkStep
  dsimp only
  unfold resolvedEid at hres
  cases hr : env.resolve c.url with
  | none =>
      rw [hr] at hres
      exact Option.noConfusion hres
  | some info =>
      try rw [hr] at hres
      dsimp only at hres ⊢
      by_cases ha : info.audio_url = ""
      · rw [if_pos ha] at hres
        exact Option.noConfusion hres
      · rw [if_neg ha] at hres
        by_cases hi : info.episode_id = ""
        · rw [if_pos hi] at hres
          exact Option.noConfusion hres
        · rw [if_neg hi] at hres
          have heid : info.episode_id = eid := Option.some.inj hres
          rw [if_neg hi]
          subst heid
          by_cases hc : is_completedE s info.episode_id = true
          · rw [if_pos hc]
            exact Or.inl hc
          · rw [if_neg hc]
            dsimp only
            cases hrun : (process_episode env s c).2.1 with
            | true => exact Or.inl (process_true_completed env s c _ hres0 hrun)
            | false => exact Or.inr (process_false_wedged env s c _ hres0 hrun)

theorem checkStep_zero (env : Env) (s : SState) (oc : Option Cand)
    (h : ∀ c eid, oc = some c → resolvedEid env c = some eid →
      is_completedE s eid = true ∨ Wedged env c s) :
    (checkStep env s oc).2.1 = 0 := by
  unfold checkStep
  cases oc with
  | none => rfl
  | some c =>
      dsimp only
      cases hr : env.resolve c.url with
      | none => rfl
      | some info =>
          dsimp only
          by_cases hi : info.episode_id = ""
          · rw [if_pos hi]
          · rw [if_neg hi]
            by_cases hc : is_completedE s info.episode_id = true
            · rw [if_pos hc]
            · rw [if_neg hc]
              dsimp only
              by_cases haud : info.audio_url = ""
              · have hrf : (process_episode env s c).2.1 = false := by
                  unfold process_episode
                  rw [hr]
                  dsimp only
                  rw [if_pos haud]
                simp [hrf]
              · have hres' : resolvedEid env c = some info.episode_id := by
                  unfold resolvedEid
                  rw [hr]
                  dsimp only
                  rw [if_neg haud, if_neg hi]
                rcases h c info.episode_id rfl hres' with hcomp | hwedge
                · exact absurd hcomp hc
                · simp [Wedged_false env s c hwedge]

theorem checkLoop_keeps (env : Env) (rest : List (Option Cand)) (t : SState)
    (c : Cand) (eid : String)
    (hres : resolvedEid env c = some eid)
    (hwf : wfS t)
    (havoid : eid ∉ rest.filterMap (candEid env))
    (h : is_completedE t eid = true ∨ Wedged env c t) :
    is_completedE (checkLoop env rest t).1 eid = true ∨
    Wedged env c (checkLoop env rest t).1 := by
  induction rest generalizing t with
  | nil => exact h
  | cons oc rest2 ih =>
      have hoc : candEid env oc ≠ some eid := by
        intro hh
        exact havoid (List.mem_filterMap.mpr ⟨oc, List.mem_cons_self _ _, hh⟩)
      have havoid2 : eid ∉ rest2.filterMap (candEid env) := by
        intro hh
        obtain ⟨a, hmem, hfa⟩ := List.mem_filterMap.mp hh
        exact havoid (List.mem_filterMap.mpr ⟨a, List.mem_cons_of_mem _ hmem, hfa⟩)
      obtain ⟨hg, hf⟩ := checkStep_slice env t oc eid hoc
      have h' : is_completedE (checkStep env t oc).1 eid = true ∨
          Wedged env c (checkStep env t oc).1 := by
        rcases h with h | h
        · exact Or.inl ((is_completedE_congr t _ eid hg).trans h)
        · exact Or.inr (Wedged_preserved env c t _ eid hres hwf h hg hf)
      exact ih (checkStep env t oc).1 (wf_checkStep env t oc hwf) havoid2 h'

theorem checkLoop_post (env : Env) (rs : List (Option Cand)) (s : SState)
    (hwf : wfS s)
    (hnd : (rs.filterMap (candEid env)).Nodup) :
    ∀ oc ∈ rs, ∀ c eid, oc = some c → resolvedEid env c = some eid →
      is_completedE (checkLoop env rs s).1 eid = true ∨
      Wedged env c (checkLoop env rs s).1 := by
  induction rs generalizing s with
  | nil =>
      intro oc hmem
      exact absurd hmem (List.not_mem_nil oc)
  | cons oc0 rest ih =>
      intro oc hmem c eid hoc hres
      subst hoc
      rcases List.mem_cons.mp hmem with hh | hmem2
      · have hcand : candEid env oc0 = some eid := by
          rw [← hh]
          exact hres
        have hnd' : (eid :: rest.filterMap (candEid env)).Nodup := by
          rw [List.filterMap_cons, hcand] at hnd
          exact hnd
        have havoid : eid ∉ rest.filterMap (candEid env) :=
          (List.nodup_cons.mp hnd').1
        have hstep : is_completedE (checkStep env s oc0).1 eid = true ∨
            Wedged env c (checkStep env s oc0).1 := by
          rw [← hh]
          exact checkStep_post env s c eid hres
        exact checkLoop_keeps env rest (checkStep env s oc0).1 c eid hres
          (wf_checkStep env s oc0 hwf) havoid hstep
      · have hndrest : (rest.filterMap (candEid env)).Nodup := by
          rw [List.filterMap_cons] at hnd
          cases hcc : candEid env oc0 with
          | none =>
              rw [hcc] at hnd
              exact hnd
          | some b =>
              rw [hcc] at hnd
              exact (List.nodup_cons.mp hnd).2
        exact ih (checkStep env s oc0).1 (wf_checkStep env s oc0 hwf) hndrest
          (some c) hmem2 c eid rfl hres

theorem checkLoop_zero (env : Env) (rs : List (Option Cand)) (s : SState)
    (hwf : wfS s)
    (hnd : (rs.filterMap (candEid env)).Nodup)
    (hpost : ∀ oc ∈ rs, ∀ c eid, oc = some c → resolvedEid env c = some eid →
      is_completedE s eid = true ∨ Wedged env c s) :
    (checkLoop env rs s).2.1 = 0 := by
  induction rs generalizing s with
  | nil => rfl
  | cons oc0 rest ih =>
      have hstep0 : (checkStep env s oc0).2.1 = 0 :=
        checkStep_zero env s oc0 (fun c eid hoc hres =>
          hpost oc0 (List.mem_cons_self _ _) c eid hoc hres)
      have hndrest : (rest.filterMap (candEid env)).Nodup := by
        rw [List.filterMap_cons] at hnd
        cases hcc : candEid env oc0 with
        | none =>
            rw [hcc] at hnd
            exact hnd
        | some b =>
            rw [hcc] at hnd
            exact (List.nodup_cons.mp hnd).2
      have hpost' : ∀ oc ∈ rest, ∀ c eid, oc = some c →
          resolvedEid env c = some eid →
          is_completedE (checkStep env s oc0).1 eid = true ∨
          Wedged env c (checkStep env s oc0).1 := by
        intro oc hmem c eid hoc hres
        subst hoc
        have hoc0 : candEid env oc0 ≠ some eid := by
          intro hh
          have h1 : eid ∈ rest.filterMap (candEid env) :=
            List.mem_filterMap.mpr ⟨some c, hmem, hres⟩
          have hnd' : (eid :: rest.filterMap (candEid env)).Nodup := by
            rw [List.filterMap_cons, hh] at hnd
            exact hnd
          exact (List.nodup_cons.mp hnd').1 h1
        obtain ⟨hg, hf⟩ := checkStep_slice env s oc0 eid hoc0
        rcases hpost (some c) (List.mem_cons_of_mem _ hmem) c eid rfl hres with
          hcv | hwv
        · exact Or.inl ((is_completedE_congr s _ eid hg).trans hcv)
        · exact Or.inr (Wedged_preserved env c s _ eid hres hwf hwv hg hf)
      have hrest0 := ih (checkStep env s oc0).1 (wf_checkStep env s oc0 hwf)
        hndrest hpost'
      show (checkStep env s oc0).2.1 +
        (checkLoop env rest (checkStep env s oc0).1).2.1 = 0
      rw [hstep0, hrest0]

theorem checkStep_completed_frame (env : Env) (s : SState) (oc : Option Cand)
    (k : String) (hc : is_completedE s k = true) :
    getEp (checkStep env s oc).1 k = getEp s k := by
  unfold checkStep
  cases oc with
  | none => rfl
  | some c =>
      dsimp only
      cases hr : env.resolve c.url with
      | none => rfl
      | some info =>
          dsimp only
          by_cases hi : info.episode_id = ""
          · rw [if_pos hi]
          · rw [if_neg hi]
            by_cases hcc : is_completedE s info.episode_id = true
            · rw [if_pos hcc]
            · rw [if_neg hcc]
              dsimp only
              apply process_episode_frame
              intro hh
              unfold resolvedEid at hh
              rw [hr] at hh
              dsimp only at hh
              by_cases haud : info.audio_url = ""
              · rw [if_pos haud] at hh
                exact Option.noConfusion hh
              · rw [if_neg haud, if_neg hi] at hh
                rw [Option.some.inj hh] at hcc
                exact hcc hc

theorem checkLoop_completed_frame (env : Env) (rs : List (Option Cand))
    (s : SState) (k : String) (hc : is_completedE s k = true) :
    getEp (checkLoop env rs s).1 k = getEp s k := by
  induction rs generalizing s with
  | nil => rfl
  | cons oc rest ih =>
      have h1 := checkStep_completed_frame env s oc k hc
      have hc' : is_completedE (checkStep env s oc).1 k = true :=
        (is_completedE_congr s _ k h1).trans hc
      exact ((ih (checkStep env s oc).1 hc').trans h1)

/-- **C8 (amended).**  With the adapters fixed (deterministic oracles), the
state store well-formed (every stored `transcription_path` is the episode's
own workspace path) and the records resolving to pairwise-distinct episode
ids, running `check_and_process_new` twice over the same records processes
zero additional episodes the second time: the second call returns 0, and the
record of every episode completed after the first call is unchanged by the
second. -/
theorem C8_amended (env : Env) (s0 : SState) (rs : List (Option Cand))
    (hwf : wfS s0)
    (hnd : (rs.filterMap (candEid env)).Nodup) :
    (check_and_process_new env (check_and_process_new env s0 rs).1 rs).2.1 = 0 ∧
    ∀ k, is_completedE (check_and_process_new env s0 rs).1 k = true →
      getEp (check_and_process_new env (check_and_process_new env s0 rs).1 rs).1 k =
        getEp (check_and_process_new env s0 rs).1 k := by
  have hwf1 : wfS (check_and_process_new env s0 rs).1 := by
    intro k e h
    exact wf_checkLoop env rs s0 hwf k e h
  have hpost := checkLoop_post env rs s0 hwf hnd
  constructor
  · show (checkLoop env rs (check_and_process_new env s0 rs).1).2.1 = 0
    refine checkLoop_zero env rs _ hwf1 hnd ?_
    intro oc hmem c eid hoc hres
    rcases hpost oc hmem c eid hoc hres with h | h
    · exact Or.inl h
    · exact Or.inr h
  · intro k hk
    show getEp (checkLoop env rs (check_and_process_new env s0 rs).1).1 k =
      getEp (check_and_process_new env s0 rs).1 k
    exact checkLoop_completed_frame env rs _ k hk

/-- Adapters for the idempotent-discovery witness run: one candidate that
resolves, submits, transcribes and renders successfully. -/
def envC8W : Env where
  resolve := fun _ => some { episode_id := "E1", audio_url := "A1",
                             title := some "T1" }
  submit := fun _ => some "TK1"
  taskDone := fun _ => true
  writeOk := fun _ => true
  loadOk := fun _ => true
  renderOk := fun _ => true

def rsC8W : List (Option Cand) :=
  [some { record_id := "R1", url := "U1", title := "T1" }]

/-- Witness for C8 (amended): on the singleton record list the distinctness
hypothesis holds by computation, the empty store is well-formed, and the
second discovery pass returns 0. -/
theorem C8_amended_witness :
    (rsC8W.filterMap (candEid envC8W)).Nodup ∧
    (check_and_process_new envC8W
      (check_and_process_new envC8W {} rsC8W).1 rsC8W).2.1 = 0 :=
  ⟨by decide,
    (C8_amended envC8W {} rsC8W
      (by intro k e h; simp [getEp, assocGet] at h)
      (by decide)).1⟩

end PodcastSpec
